import Mathlib

/-!
# Task profiles of the cost-based planner (`plan/task_profile.go`)

A shallow embedding of the task-profile code.  Go pointers become addresses into an explicit
heap: plan nodes live in `Heap.plans`, task profiles in `Heap.profiles`; an address is the
position of the cell, allocation appends a cell, and the nil pointer is `none`.  A method that
would dereference nil (or index out of range) returns `none`.

A cost (`float64` in the source) is carried as the rational number that the float64 value
denotes, and every float64 operation of the source is the exact operation followed by the
rounding to the nearest float64 value, a tie going to the even mantissa (`float64.round`);
each operation is rounded on its own, a product and the sum that uses it are not fused.
Overflow to infinity and NaN are not modelled: in `float64.round` the exponent is not bounded
above.  Row counts (`uint64`) are natural numbers.  The three calibration constants, declared
outside `task_profile.go`, are a parameter.
-/

namespace Plan

/-! ## Data model -/

/-- Address of a heap cell. -/
abbrev Addr := Nat

/-- Modelled from the spec: a column of package `expression` (not part of the sources at hand),
known only by its identity. -/
structure Column where
  id : Nat
deriving DecidableEq, Repr

/-- Modelled from the spec: a boolean predicate of package `expression` (not part of the sources
at hand).  The planner only asks which columns a predicate references. -/
structure Expression where
  id : Nat
  cols : List Column
deriving DecidableEq, Repr

/-- Modelled from the spec: `expression.Schema`, the ordered list of output columns. -/
abbrev Schema := List Column

/-- Modelled from the spec: `expression.ExtractColumns`, the columns a predicate references. -/
def ExtractColumns (e : Expression) : List Column := e.cols

/-- Modelled from the spec: `Schema.ColumnsIndices`, the position in the schema of every given
column, and nil (`none`) when some column is not in the schema. -/
def ColumnsIndices (schema : Schema) : List Column → Option (List Nat)
  | [] => some []
  | c :: cs =>
    if c ∈ schema then
      match ColumnsIndices schema cs with
      | some is => some (schema.indexOf c :: is)
      | none => none
    else none

/-- A value of interface type `PhysicalPlan`: nil or a pointer to a plan node. -/
abbrev PhysicalPlan := Option Addr

/-- Modelled from the spec: the operator a plan node stands for, with the fields that
`task_profile.go` reads; the types `Limit` and `Selection` are declared outside that file, and
`Scan` stands for every other kind of node. -/
inductive Operator where
  | Limit (Count : Nat)
  | Selection (Conditions : List Expression)
  | Scan
deriving DecidableEq, Repr

/-- Modelled from the spec: a plan node, declared outside `task_profile.go`: its operator, its
child links and its output schema.  For a `Selection` the list `Conditions` holds the cells of
the array behind the slice, up to the length of the slice. -/
structure PlanNode where
  op : Operator
  children : List PhysicalPlan
  schema : Schema
deriving DecidableEq, Repr

/-- The struct `copTaskProfile`. -/
structure copTaskProfile where
  indexPlan : PhysicalPlan
  tablePlan : PhysicalPlan
  cst : ℚ
  cnt : Nat
  addPlan2Index : Bool
deriving DecidableEq

/-- The struct `rootTaskProfile`. -/
structure rootTaskProfile where
  plan : PhysicalPlan
  cst : ℚ
  cnt : Nat
deriving DecidableEq

/-- The dynamic type behind a value of interface `taskProfile`. -/
inductive taskProfile where
  | cop (t : copTaskProfile)
  | root (t : rootTaskProfile)
deriving DecidableEq

/-- The heap: plan nodes and task profiles, each addressed by position. -/
structure Heap where
  plans : List PlanNode
  profiles : List taskProfile
deriving DecidableEq

/-- The calibration constants `netWorkFactor`, `cpuFactor` and `selectionFactor`, which
`task_profile.go` uses and does not declare. -/
structure CostFactors where
  netWorkFactor : ℚ
  cpuFactor : ℚ
  selectionFactor : ℚ

/-! ## float64 arithmetic -/

/-- Rounding of a rational to the nearest integer, a tie going to the even one. -/
def roundHalfEven (t : ℚ) : ℤ :=
  if t - ⌊t⌋ < 1 / 2 then ⌊t⌋
  else if 1 / 2 < t - ⌊t⌋ then ⌊t⌋ + 1
  else if ⌊t⌋ % 2 = 0 then ⌊t⌋ else ⌊t⌋ + 1

/-- The binary exponent that float64 uses for `q`: the `e` with `2 ^ e ≤ |q| < 2 ^ (e + 1)`,
and `-1022`, the exponent of the subnormal numbers, below `2 ^ (-1022)`. -/
def float64.expo (q : ℚ) : ℤ := max (Int.log 2 |q|) (-1022)

/-- The distance between two consecutive float64 values around `q`: 53 bits of mantissa. -/
def float64.ulp (q : ℚ) : ℚ := (2 : ℚ) ^ (float64.expo q - 52)

/-- The float64 value nearest to `q`, a tie going to the even mantissa (IEEE 754
round-to-nearest-even, the rounding of every float64 operation in Go). -/
def float64.round (q : ℚ) : ℚ := (roundHalfEven (q / float64.ulp q) : ℚ) * float64.ulp q

/-- The rational `q` is a float64 value. -/
def isFloat64 (q : ℚ) : Prop := float64.round q = q

/-- The float64 sum `x + y`. -/
def float64.add (x y : ℚ) : ℚ := float64.round (x + y)

/-- The float64 product `x * y`. -/
def float64.mul (x y : ℚ) : ℚ := float64.round (x * y)

/-- The conversion `float64(n)` of a `uint64`. -/
def float64.ofUint64 (n : Nat) : ℚ := float64.round n

/-- The conversion `uint64(x)` of a float64: the fraction is discarded.  For `x` outside the
range of `uint64` Go leaves the result to the platform; here it is taken modulo `2 ^ 64` (and 0
for a negative `x`). -/
def float64.toUint64 (x : ℚ) : Nat := ⌊x⌋₊ % 2 ^ 64

/-- The cost `c` after `j` statements `cst += x`: `j` float64 additions, one after the
other. -/
def float64.addTimes : Nat → ℚ → ℚ → ℚ
  | 0, c, _ => c
  | j + 1, c, x => float64.add (float64.addTimes j c x) x

/-! ## Heap primitives -/

/-- Allocation of a plan node: the new cell sits at the end of the heap. -/
def Heap.newPlan (h : Heap) (n : PlanNode) : Heap × Addr :=
  ({ h with plans := h.plans ++ [n] }, h.plans.length)

/-- Allocation of a task profile. -/
def Heap.newProfile (h : Heap) (v : taskProfile) : Heap × Addr :=
  ({ h with profiles := h.profiles ++ [v] }, h.profiles.length)

/-- Store into an allocated profile cell. -/
def Heap.setProfile (h : Heap) (t : Addr) (v : taskProfile) : Heap :=
  { h with profiles := h.profiles.set t v }

/-- Modelled from the spec: the method `SetChildren` of a plan node, declared outside
`task_profile.go`: it replaces the child links of the receiver. -/
def SetChildren (h : Heap) (p : PhysicalPlan) (children : List PhysicalPlan) : Option Heap :=
  match p with
  | none => none
  | some a =>
    match h.plans[a]? with
    | none => none
    | some n => some { h with plans := h.plans.set a { n with children := children } }

/-- Modelled from the spec: the method `Schema` of a plan node, declared outside
`task_profile.go`: it reports the output schema of the receiver. -/
def PlanSchema (h : Heap) (p : PhysicalPlan) : Option Schema :=
  match p with
  | none => none
  | some a =>
    match h.plans[a]? with
    | none => none
    | some n => some n.schema

/-- The predicate list of a filter node, empty for nil and for anything that is not a filter. -/
def conditionsOf (h : Heap) (p : Option Addr) : List Expression :=
  match p with
  | none => []
  | some a =>
    match h.plans[a]? with
    | some ⟨.Selection conds, _, _⟩ => conds
    | _ => []

/-! ## `splitSelectionByIndexColumns` -/

/-- The variables of the loop in `splitSelectionByIndexColumns`: the array shared by
`sel.Conditions` and the local slice `conditions`, the length of `conditions`, and
`tableConds`. -/
structure SplitState where
  backing : List Expression
  len : Nat
  tableConds : List Expression
deriving DecidableEq, Repr

/-- The array after `append(conditions[:i], conditions[i+1:]...)`, for `conditions` of length
`len`: the cells `i+1 .. len-1` move one place down, inside the same array (the result is shorter
than the capacity), and every other cell keeps its value. -/
def removeAt (backing : List Expression) (len i : Nat) : List Expression :=
  backing.take i ++ (backing.drop (i + 1)).take (len - (i + 1)) ++ backing.drop (len - 1)

/-- The loop `for i := len(conditions) - 1; i >= 0; i--`; the first argument is `i + 1`. -/
def splitLoop (schema : Schema) : Nat → SplitState → Option SplitState
  | 0, st => some st
  | i + 1, st =>
    if i < st.len then
      match st.backing[i]? with
      | none => none
      | some cond =>
        match ColumnsIndices schema (ExtractColumns cond) with
        | none =>
          splitLoop schema i
            { backing := removeAt st.backing st.len i
              len := st.len - 1
              tableConds := st.tableConds ++ [cond] }
        | some _ => splitLoop schema i st
    else none

/-- The method `Selection.splitSelectionByIndexColumns`.  Returns the heap after the call,
`indexSel` and `tableSel`.  The node built for `tableSel` is a new cell; its identity is its
address. -/
def Selection.splitSelectionByIndexColumns (h : Heap) (sel : Addr) (schema : Schema) :
    Option (Heap × Option Addr × Option Addr) :=
  match h.plans[sel]? with
  | some ⟨.Selection conds, ch, sch⟩ =>
    match splitLoop schema conds.length ⟨conds, conds.length, []⟩ with
    | none => none
    | some st =>
      let h1 : Heap := { h with plans := h.plans.set sel ⟨.Selection st.backing, ch, sch⟩ }
      let indexSel : Option Addr := if st.len ≠ 0 then some sel else none
      if st.tableConds.length ≠ 0 then
        let r := h1.newPlan ⟨.Selection st.tableConds, [], []⟩
        some (r.1, indexSel, some r.2)
      else some (h1, indexSel, none)
  | _ => none

/-! ## `copTaskProfile` -/

/-- The method `copTaskProfile.setCount`. -/
def copTaskProfile.setCount (h : Heap) (t : Addr) (cnt : Nat) : Option Heap :=
  match h.profiles[t]? with
  | some (.cop c) => some (h.setProfile t (.cop { c with cnt := cnt }))
  | _ => none

/-- The method `copTaskProfile.count`. -/
def copTaskProfile.count (h : Heap) (t : Addr) : Option Nat :=
  match h.profiles[t]? with
  | some (.cop c) => some c.cnt
  | _ => none

/-- The method `copTaskProfile.setCost`. -/
def copTaskProfile.setCost (h : Heap) (t : Addr) (cst : ℚ) : Option Heap :=
  match h.profiles[t]? with
  | some (.cop c) => some (h.setProfile t (.cop { c with cst := cst }))
  | _ => none

/-- The method `copTaskProfile.cost`. -/
def copTaskProfile.cost (h : Heap) (t : Addr) : Option ℚ :=
  match h.profiles[t]? with
  | some (.cop c) => some c.cst
  | _ => none

/-- The method `copTaskProfile.copy`: a new profile cell with the five fields of the receiver. -/
def copTaskProfile.copy (h : Heap) (t : Addr) : Option (Heap × Addr) :=
  match h.profiles[t]? with
  | some (.cop c) =>
    some (h.newProfile (.cop
      { indexPlan := c.indexPlan
        tablePlan := c.tablePlan
        cst := c.cst
        cnt := c.cnt
        addPlan2Index := c.addPlan2Index }))
  | _ => none

/-- The method `copTaskProfile.attachPlan`. -/
def copTaskProfile.attachPlan (h : Heap) (t : Addr) (p : PhysicalPlan) : Option (Heap × Addr) :=
  match copTaskProfile.copy h t with
  | none => none
  | some (h1, nt) =>
    match h1.profiles[nt]? with
    | some (.cop c) =>
      if c.addPlan2Index then
        match SetChildren h1 p [c.indexPlan] with
        | none => none
        | some h2 => some (h2.setProfile nt (.cop { c with indexPlan := p }), nt)
      else
        match SetChildren h1 p [c.tablePlan] with
        | none => none
        | some h2 => some (h2.setProfile nt (.cop { c with tablePlan := p }), nt)
    | _ => none

/-- The method `copTaskProfile.finishTask`. -/
def copTaskProfile.finishTask (k : CostFactors) (h : Heap) (t : Addr) : Option Heap :=
  match h.profiles[t]? with
  | some (.cop c) =>
    let cst1 : ℚ := float64.add c.cst (float64.mul (float64.ofUint64 c.cnt) k.netWorkFactor)
    let cst2 : ℚ :=
      if c.tablePlan ≠ none ∧ c.indexPlan ≠ none then
        float64.add cst1 (float64.mul (float64.ofUint64 c.cnt) k.netWorkFactor)
      else cst1
    some (h.setProfile t (.cop { c with cst := cst2 }))
  | _ => none

/-! ## `rootTaskProfile` -/

/-- The method `rootTaskProfile.copy`. -/
def rootTaskProfile.copy (h : Heap) (t : Addr) : Option (Heap × Addr) :=
  match h.profiles[t]? with
  | some (.root r) => some (h.newProfile (.root { plan := r.plan, cst := r.cst, cnt := r.cnt }))
  | _ => none

/-- The method `rootTaskProfile.attachPlan`. -/
def rootTaskProfile.attachPlan (h : Heap) (t : Addr) (p : PhysicalPlan) : Option (Heap × Addr) :=
  match rootTaskProfile.copy h t with
  | none => none
  | some (h1, nt) =>
    match h1.profiles[nt]? with
    | some (.root r) =>
      match SetChildren h1 p [r.plan] with
      | none => none
      | some h2 => some (h2.setProfile nt (.root { r with plan := p }), nt)
    | _ => none

/-- The method `rootTaskProfile.setCount`. -/
def rootTaskProfile.setCount (h : Heap) (t : Addr) (cnt : Nat) : Option Heap :=
  match h.profiles[t]? with
  | some (.root r) => some (h.setProfile t (.root { r with cnt := cnt }))
  | _ => none

/-- The method `rootTaskProfile.count`. -/
def rootTaskProfile.count (h : Heap) (t : Addr) : Option Nat :=
  match h.profiles[t]? with
  | some (.root r) => some r.cnt
  | _ => none

/-- The method `rootTaskProfile.setCost`. -/
def rootTaskProfile.setCost (h : Heap) (t : Addr) (cst : ℚ) : Option Heap :=
  match h.profiles[t]? with
  | some (.root r) => some (h.setProfile t (.root { r with cst := cst }))
  | _ => none

/-- The method `rootTaskProfile.cost`. -/
def rootTaskProfile.cost (h : Heap) (t : Addr) : Option ℚ :=
  match h.profiles[t]? with
  | some (.root r) => some r.cst
  | _ => none

/-! ## The interface `taskProfile`: dispatch on the dynamic type of the receiver -/

/-- Interface call `attachPlan`. -/
def taskProfile.attachPlan (h : Heap) (t : Addr) (p : PhysicalPlan) : Option (Heap × Addr) :=
  match h.profiles[t]? with
  | some (.cop _) => copTaskProfile.attachPlan h t p
  | some (.root _) => rootTaskProfile.attachPlan h t p
  | none => none

/-- Interface call `setCount`. -/
def taskProfile.setCount (h : Heap) (t : Addr) (cnt : Nat) : Option Heap :=
  match h.profiles[t]? with
  | some (.cop _) => copTaskProfile.setCount h t cnt
  | some (.root _) => rootTaskProfile.setCount h t cnt
  | none => none

/-- Interface call `count`. -/
def taskProfile.count (h : Heap) (t : Addr) : Option Nat :=
  match h.profiles[t]? with
  | some (.cop _) => copTaskProfile.count h t
  | some (.root _) => rootTaskProfile.count h t
  | none => none

/-- Interface call `setCost`. -/
def taskProfile.setCost (h : Heap) (t : Addr) (cst : ℚ) : Option Heap :=
  match h.profiles[t]? with
  | some (.cop _) => copTaskProfile.setCost h t cst
  | some (.root _) => rootTaskProfile.setCost h t cst
  | none => none

/-- Interface call `cost`. -/
def taskProfile.cost (h : Heap) (t : Addr) : Option ℚ :=
  match h.profiles[t]? with
  | some (.cop _) => copTaskProfile.cost h t
  | some (.root _) => rootTaskProfile.cost h t
  | none => none

/-- Interface call `copy`. -/
def taskProfile.copy (h : Heap) (t : Addr) : Option (Heap × Addr) :=
  match h.profiles[t]? with
  | some (.cop _) => copTaskProfile.copy h t
  | some (.root _) => rootTaskProfile.copy h t
  | none => none

/-! ## The attachment rules -/

/-- The method `Limit.attach2TaskProfile`. -/
def Limit.attach2TaskProfile (h : Heap) (limit : Addr) (profiles : List Addr) :
    Option (Heap × Addr) :=
  match profiles[0]? with
  | none => none
  | some p0 =>
    match taskProfile.attachPlan h p0 (some limit) with
    | none => none
    | some (h1, profile) =>
      match h1.plans[limit]? with
      | some ⟨.Limit Count, _, _⟩ =>
        match taskProfile.setCount h1 profile Count with
        | none => none
        | some h2 => some (h2, profile)
      | _ => none

/-- The statement `if t.tablePlan != nil { indexSel, tableSel = split(...) } else { indexSel = sel }`
of `Selection.attach2TaskProfile`. -/
def selectSides (h : Heap) (sel : Addr) (t : copTaskProfile) :
    Option (Heap × Option Addr × Option Addr) :=
  if t.tablePlan ≠ none then
    match PlanSchema h t.indexPlan with
    | none => none
    | some schema => Selection.splitSelectionByIndexColumns h sel schema
  else some (h, some sel, none)

/-- The block `if indexSel != nil { ... }` of `Selection.attach2TaskProfile`. -/
def attachIndexSel (k : CostFactors) (h : Heap) (t : copTaskProfile) (indexSel : Option Addr) :
    Option (Heap × copTaskProfile) :=
  match indexSel with
  | none => some (h, t)
  | some a =>
    match SetChildren h (some a) [t.indexPlan] with
    | none => none
    | some h1 =>
      some (h1, { t with
        indexPlan := some a
        cst := float64.add t.cst (float64.mul (float64.ofUint64 t.cnt) k.cpuFactor) })

/-- The block `if tableSel != nil { ... }` of `Selection.attach2TaskProfile`. -/
def attachTableSel (k : CostFactors) (h : Heap) (t : copTaskProfile) (tableSel : Option Addr) :
    Option (Heap × copTaskProfile) :=
  match tableSel with
  | none => some (h, t)
  | some a =>
    match SetChildren h (some a) [t.tablePlan] with
    | none => none
    | some h1 =>
      some (h1, { t with
        tablePlan := some a
        addPlan2Index := false
        cst := float64.add t.cst (float64.mul (float64.ofUint64 t.cnt) k.cpuFactor) })

/-- The method `Selection.attach2TaskProfile`.  The fields of the copied profile are updated in
the local record `t` and stored into its cell once, at the end: between the copy and the return
nothing else reads that cell. -/
def Selection.attach2TaskProfile (k : CostFactors) (h : Heap) (sel : Addr) (profiles : List Addr) :
    Option (Heap × Addr) :=
  match profiles[0]? with
  | none => none
  | some p0 =>
    match taskProfile.copy h p0 with
    | none => none
    | some (h1, profile) =>
      match h1.profiles[profile]? with
      | some (.cop t) =>
        if t.addPlan2Index then
          match selectSides h1 sel t with
          | none => none
          | some (h2, indexSel, tableSel) =>
            match attachIndexSel k h2 t indexSel with
            | none => none
            | some (h3, t1) =>
              match attachTableSel k h3 t1 tableSel with
              | none => none
              | some (h4, t2) =>
                some (h4.setProfile profile
                  (.cop { t2 with
                    cnt := float64.toUint64
                      (float64.mul (float64.ofUint64 t2.cnt) k.selectionFactor) }), profile)
        else
          match SetChildren h1 (some sel) [t.tablePlan] with
          | none => none
          | some h2 =>
            some (h2.setProfile profile
              (.cop { t with
                tablePlan := some sel
                cst := float64.add t.cst (float64.mul (float64.ofUint64 t.cnt) k.cpuFactor)
                cnt := float64.toUint64
                  (float64.mul (float64.ofUint64 t.cnt) k.selectionFactor) }), profile)
      | some (.root t) =>
        some (h1.setProfile profile
          (.root { t with
            cst := float64.add t.cst (float64.mul (float64.ofUint64 t.cnt) k.cpuFactor)
            cnt := float64.toUint64
              (float64.mul (float64.ofUint64 t.cnt) k.selectionFactor) }), profile)
      | none => none

/-! ## Observations on a heap -/

/-- The predicate list of the filter node at the root of the index subtree of the cop task at
`t` (empty when there is no such node). -/
def indexSidePredicates (h : Heap) (t : Addr) : List Expression :=
  match h.profiles[t]? with
  | some (.cop c) => conditionsOf h c.indexPlan
  | _ => []

/-- The field `plan` of the root task at `t`. -/
def rootPlanOf (h : Heap) (t : Addr) : Option PhysicalPlan :=
  match h.profiles[t]? with
  | some (.root r) => some r.plan
  | _ => none

/-- The child links of the plan node at `a`. -/
def childrenOf (h : Heap) (a : Addr) : Option (List PhysicalPlan) :=
  match h.plans[a]? with
  | some n => some n.children
  | none => none

/-- The side flag `addPlan2Index` of the cop task at `t`. -/
def sideFlag (h : Heap) (t : Addr) : Option Bool :=
  match h.profiles[t]? with
  | some (.cop c) => some c.addPlan2Index
  | _ => none

/-- The count held by a profile value. -/
def profileCount : taskProfile → Nat
  | .cop c => c.cnt
  | .root r => r.cnt

/-- The cost held by a profile value. -/
def profileCost : taskProfile → ℚ
  | .cop c => c.cst
  | .root r => r.cst

/-- The calibration constants used in the worked examples: the float64 values of `1.5`, `0.9`
and `0.8`. -/
def exampleFactors : CostFactors :=
  ⟨3 / 2, 8106479329266893 / 9007199254740992, 3602879701896397 / 4503599627370496⟩

/-- Calibration constants with which the worked examples compute without rounding: `1.5`, `0.5`
and `0.25`. -/
def dyadicFactors : CostFactors := ⟨3 / 2, 1 / 2, 1 / 4⟩

/-- A worked example: an index scan over column 1 (node 0), a table scan over columns 1 and 2
(node 1), a filter with one predicate on column 1 and one on column 2 (node 2) and a limit of 10
rows (node 3); an index-side cop task with a table subtree and 500 rows (profile 0), a root
task with 200 rows (profile 1), a table-side cop task with 3 rows (profile 2) and an index-only
cop task with 300 rows (profile 3). -/
def exampleHeap : Heap :=
  ⟨[⟨.Scan, [], [⟨1⟩]⟩, ⟨.Scan, [], [⟨1⟩, ⟨2⟩]⟩,
    ⟨.Selection [⟨1, [⟨1⟩]⟩, ⟨2, [⟨2⟩]⟩], [], []⟩, ⟨.Limit 10, [], []⟩],
   [.cop ⟨some 0, some 1, 0, 500, true⟩, .root ⟨some 1, 7, 200⟩,
    .cop ⟨some 0, some 1, 5, 3, false⟩, .cop ⟨some 0, none, 2, 300, true⟩]⟩

/-! ## Calls on a profile

The operations of `task_profile.go` that take a task profile, as data, so that a statement can
range over "every operation" and over sequences of them. -/

/-- One call on the profile at hand. -/
inductive Op where
  | attachPlan (p : PhysicalPlan)
  | limitAttach (limit : Addr)
  | selectionAttach (sel : Addr)
  | copy
  | setCount (cnt : Nat)
  | setCost (cst : ℚ)
  | finishTask

/-- Runs the call on the profile at `t`; returns the heap after the call and the profile at
hand after it: the returned profile for `attachPlan`, `attach2TaskProfile` and `copy`, the
receiver for the setters and `finishTask`. -/
def Op.apply (k : CostFactors) (h : Heap) (t : Addr) : Op → Option (Heap × Addr)
  | .attachPlan p => taskProfile.attachPlan h t p
  | .limitAttach limit => Limit.attach2TaskProfile h limit [t]
  | .selectionAttach sel => Selection.attach2TaskProfile k h sel [t]
  | .copy => taskProfile.copy h t
  | .setCount cnt =>
    match taskProfile.setCount h t cnt with
    | some h1 => some (h1, t)
    | none => none
  | .setCost cst =>
    match taskProfile.setCost h t cst with
    | some h1 => some (h1, t)
    | none => none
  | .finishTask =>
    match copTaskProfile.finishTask k h t with
    | some h1 => some (h1, t)
    | none => none

/-- Runs a sequence of calls, each on the profile at hand after the previous one. -/
def runOps (k : CostFactors) : Heap → Addr → List Op → Option (Heap × Addr)
  | h, t, [] => some (h, t)
  | h, t, op :: ops =>
    match op.apply k h t with
    | none => none
    | some (h1, t1) => runOps k h1 t1 ops

/-- The operator of every plan node, by address. -/
def Heap.operators (h : Heap) : List Operator := h.plans.map (fun n => n.op)

/-- The plan operand of a call has the Go type the call asks for: a non-nil plan node for
`attachPlan`, a `*Limit` and a `*Selection` for the two `attach2TaskProfile`. -/
def Op.operandsOK (h : Heap) : Op → Bool
  | .attachPlan p =>
    match p with
    | some a => decide (a < h.plans.length)
    | none => false
  | .limitAttach limit =>
    match h.operators[limit]? with
    | some (.Limit _) => true
    | _ => false
  | .selectionAttach sel =>
    match h.operators[sel]? with
    | some (.Selection _) => true
    | _ => false
  | _ => true

/-- The receiver can be split against: an index-side cop task with a table subtree has an index
subtree whose schema can be read. -/
def splittable (h : Heap) (t : Addr) : Bool :=
  match h.profiles[t]? with
  | some (.cop c) =>
    if c.addPlan2Index = true ∧ c.tablePlan ≠ none then
      match c.indexPlan with
      | some ip => decide (ip < h.plans.length)
      | none => false
    else true
  | _ => true

/-- The receiver is fit for the call: `Selection.attach2TaskProfile` reads the schema of the
index subtree when it splits; the other calls ask nothing. -/
def Op.receiverOK (h : Heap) (t : Addr) : Op → Bool
  | .selectionAttach _ => splittable h t
  | _ => true

/-- The call is one of the three that hand back a new profile with an operator folded in. -/
def Op.isAttach : Op → Bool
  | .attachPlan _ => true
  | .limitAttach _ => true
  | .selectionAttach _ => true
  | _ => false

/-- The call is the attachment rule of a filter node or of a limit node. -/
def Op.isAttach2TaskProfile : Op → Bool
  | .limitAttach _ => true
  | .selectionAttach _ => true
  | _ => false

/-! ## Facts about the predicate splitter -/

/-- Whether every column of the predicate is in the schema, as the loop tests it:
`schema.ColumnsIndices(expression.ExtractColumns(cond)) != nil`. -/
def coverable (schema : Schema) (cond : Expression) : Bool :=
  (ColumnsIndices schema (ExtractColumns cond)).isSome

/-- The subtree that new operators attach to: `indexPlan` on the index side and `tablePlan` on
the table side of a cop task, `plan` for a root task. -/
def activePlan : taskProfile → PhysicalPlan
  | .cop c => if c.addPlan2Index then c.indexPlan else c.tablePlan
  | .root r => r.plan

/-- The profile `v` is the profile `prof` with the node `a` as the new root of the active
subtree and every other field as it was: for a cop task the other subtree, the side flag, the
cost and the count; for a root task the cost and the count. -/
def attachedOnto (a : Addr) : taskProfile → taskProfile → Prop
  | .cop c, .cop c' =>
    (if c.addPlan2Index then c'.indexPlan = some a ∧ c'.tablePlan = c.tablePlan
      else c'.tablePlan = some a ∧ c'.indexPlan = c.indexPlan) ∧
    c'.addPlan2Index = c.addPlan2Index ∧ c'.cst = c.cst ∧ c'.cnt = c.cnt
  | .root r0, .root r1 => r1.plan = some a ∧ r1.cst = r0.cst ∧ r1.cnt = r0.cnt
  | _, _ => False

/-- The field `tablePlan` of the cop task at `t`. -/
def tablePlanOf (h : Heap) (t : Addr) : Option PhysicalPlan :=
  match h.profiles[t]? with
  | some (.cop c) => some c.tablePlan
  | _ => none

/-- The field `indexPlan` of the cop task at `t`. -/
def indexPlanOf (h : Heap) (t : Addr) : Option PhysicalPlan :=
  match h.profiles[t]? with
  | some (.cop c) => some c.indexPlan
  | _ => none

/-- A third worked example, for the float64 arithmetic, over the nodes of the first: a root
task with `3 * 2 ^ 49` rows (profile 0), an index-only cop task with as many rows (profile 1),
an index-only cop task with cost `2 ^ 53` and 1 row (profile 2), and an index-side cop task with
a table subtree, 1 row and the float64 value of `0.1` as its cost (profile 3). -/
def floatHeap : Heap :=
  ⟨[⟨.Scan, [], [⟨1⟩]⟩, ⟨.Scan, [], [⟨1⟩, ⟨2⟩]⟩,
    ⟨.Selection [⟨1, [⟨1⟩]⟩, ⟨2, [⟨2⟩]⟩], [], []⟩],
   [.root ⟨some 1, 0, 1688849860263936⟩, .cop ⟨some 0, none, 0, 1688849860263936, true⟩,
    .cop ⟨some 0, none, 9007199254740992, 1, true⟩,
    .cop ⟨some 0, some 1, 3602879701896397 / 36028797018963968, 1, true⟩]⟩

/-- A second worked example, with a filter that has no predicate (node 2): a table-side cop task
(profile 0), an index-side cop task with a table subtree (profile 1) and an index-only cop task
(profile 2). -/
def emptyFilterHeap : Heap :=
  ⟨[⟨.Scan, [], [⟨1⟩]⟩, ⟨.Scan, [], [⟨1⟩, ⟨2⟩]⟩, ⟨.Selection [], [], []⟩],
   [.cop ⟨some 0, some 1, 5, 3, false⟩, .cop ⟨some 0, some 1, 0, 500, true⟩,
    .cop ⟨some 0, none, 2, 300, true⟩]⟩

/-- The number of sides of a split that are not empty, in the words of the specification: one
for at least one predicate that the schema covers, one for at least one predicate that needs a
column absent from the schema. -/
def splitCharges (schema : Schema) (P : List Expression) : Nat :=
  (if P.any (fun e => coverable schema e) then 1 else 0)
    + (if P.any (fun e => !coverable schema e) then 1 else 0)

/-- How many times the filter rule charges `count * cpuFactor`, in the words of the
specification: once for a root task, for a table-side cop task and for an index-side cop task
without table subtree; for an index-side cop task with a table subtree, once for each side of
the split, against the schema of the index subtree, that is not empty. -/
def filterCharges (h : Heap) (prof : taskProfile) (P : List Expression) : Nat :=
  match prof with
  | .root _ => 1
  | .cop c =>
    if c.addPlan2Index then
      match c.tablePlan with
      | none => 1
      | some _ => splitCharges ((PlanSchema h c.indexPlan).getD []) P
    else 1

/-- The limit rule in the words of the specification: `attachPlan` of the limit node, then the
count of the result set to the limit value `L`. -/
def specLimitAttach (h : Heap) (limit : Addr) (L : Nat) (p : Addr) : Option (Heap × Addr) :=
  match taskProfile.attachPlan h p (some limit) with
  | none => none
  | some (h1, r) =>
    match taskProfile.setCount h1 r L with
    | none => none
    | some h2 => some (h2, r)

/-- The filter rule without split, in the words of the specification: `attachPlan` of the filter
node, then the cost of the result set to `t.cost() + float64(t.count()) * cpuFactor` and its
count to `uint64(float64(t.count()) * selectionFactor)`, for the receiver `t`, in the float64
arithmetic of the source. -/
def specSelectionAttach (k : CostFactors) (h : Heap) (sel : Addr) (t : Addr) :
    Option (Heap × Addr) :=
  match taskProfile.attachPlan h t (some sel), taskProfile.cost h t, taskProfile.count h t with
  | some (h1, r), some cst, some cnt =>
    match taskProfile.setCost h1 r (float64.add cst (float64.mul (float64.ofUint64 cnt) k.cpuFactor)) with
    | none => none
    | some h2 =>
      match taskProfile.setCount h2 r (float64.toUint64 (float64.mul (float64.ofUint64 cnt) k.selectionFactor)) with
      | none => none
      | some h3 => some (h3, r)
  | _, _, _ => none

theorem ColumnsIndices_eq_none_iff (schema : Schema) (cols : List Column) :
    ColumnsIndices schema cols = none ↔ ∃ c ∈ cols, c ∉ schema := by
  induction cols with
  | nil => simp [ColumnsIndices]
  | cons c cs ih =>
    by_cases hc : c ∈ schema
    · cases hcs : ColumnsIndices schema cs with
      | none =>
        obtain ⟨d, hd, hd'⟩ := ih.mp hcs
        simp only [ColumnsIndices, hc, if_true, hcs, true_iff]
        exact ⟨d, List.mem_cons_of_mem _ hd, hd'⟩
      | some is =>
        have hno : ¬ ∃ d ∈ cs, d ∉ schema := fun hex => by
          rw [ih.mpr hex] at hcs
          cases hcs
        simp only [ColumnsIndices, hc, if_true, hcs]
        refine ⟨fun habs => (by cases habs), ?_⟩
        rintro ⟨d, hd, hd'⟩
        rcases List.mem_cons.mp hd with rfl | hd
        · exact absurd hc hd'
        · exact absurd ⟨d, hd, hd'⟩ hno
    · simp only [ColumnsIndices, hc, if_false, true_iff]
      exact ⟨c, List.mem_cons_self _ _, hc⟩

theorem coverable_eq_false_iff (schema : Schema) (cond : Expression) :
    coverable schema cond = false ↔ ∃ c ∈ ExtractColumns cond, c ∉ schema := by
  rw [← ColumnsIndices_eq_none_iff]
  unfold coverable
  cases ColumnsIndices schema (ExtractColumns cond) <;> simp

theorem coverable_eq_true_iff (schema : Schema) (cond : Expression) :
    coverable schema cond = true ↔ ∀ c ∈ ExtractColumns cond, c ∈ schema := by
  constructor
  · intro hcov c hc
    by_contra habs
    have := (coverable_eq_false_iff schema cond).mpr ⟨c, hc, habs⟩
    rw [hcov] at this
    cases this
  · intro hall
    cases hcov : coverable schema cond with
    | true => rfl
    | false =>
      obtain ⟨c, hc, habs⟩ := (coverable_eq_false_iff schema cond).mp hcov
      exact absurd (hall c hc) habs

theorem removeAt_mid (A B C : List Expression) (x : Expression) :
    removeAt (A ++ [x] ++ B ++ C) (A.length + 1 + B.length) A.length
      = A ++ B ++ ((x :: (B ++ C)).drop B.length) := by
  unfold removeAt
  have h1 : (A ++ [x] ++ B ++ C).take A.length = A := by
    simp [List.append_assoc, List.take_left']
  have h2 : ((A ++ [x] ++ B ++ C).drop (A.length + 1)).take (A.length + 1 + B.length - (A.length + 1))
      = B := by
    have : (A ++ [x] ++ B ++ C).drop (A.length + 1) = B ++ C := by
      have hl : (A ++ [x]).length = A.length + 1 := by simp
      rw [List.append_assoc (A ++ [x]) B C, ← hl, List.drop_left]
    rw [this]
    have : A.length + 1 + B.length - (A.length + 1) = B.length := by omega
    rw [this, List.take_left]
  have h3 : (A ++ [x] ++ B ++ C).drop (A.length + 1 + B.length - 1)
      = (x :: (B ++ C)).drop B.length := by
    have : A.length + 1 + B.length - 1 = A.length + B.length := by omega
    rw [this]
    have : A ++ [x] ++ B ++ C = A ++ (x :: (B ++ C)) := by simp
    rw [this, List.drop_append]
  rw [h1, h2, h3]

/-- The loop invariant: with `A` the cells not yet visited, `B` the predicates kept so far and
`C` the cells past `len(conditions)`, the loop keeps the coverable predicates of `A` in front of
`B`, in order, and appends the others to `tableConds` from the last to the first. -/
theorem splitLoop_spec (schema : Schema) (A : List Expression) :
    ∀ (B C tc : List Expression),
      ∃ C', C'.length = C.length + (A.filter (fun e => !coverable schema e)).length ∧
        splitLoop schema A.length ⟨A ++ B ++ C, A.length + B.length, tc⟩
          = some ⟨A.filter (fun e => coverable schema e) ++ B ++ C',
                  (A.filter (fun e => coverable schema e)).length + B.length,
                  tc ++ (A.filter (fun e => !coverable schema e)).reverse⟩ := by
  induction A using List.reverseRecOn with
  | nil =>
    intro B C tc
    exact ⟨C, by simp, by simp [splitLoop]⟩
  | append_singleton A x ih =>
    intro B C tc
    have hlen : (A ++ [x]).length = A.length + 1 := by simp
    have hget : (A ++ [x] ++ B ++ C)[A.length]? = some x := by
      rw [List.append_assoc A [x] B, List.append_assoc A ([x] ++ B) C,
        List.getElem?_append_right (Nat.le_refl _)]
      simp
    rw [hlen]
    cases hx : ColumnsIndices schema (ExtractColumns x) with
    | none =>
      have hcov : coverable schema x = false := by simp [coverable, hx]
      obtain ⟨C', hC', hrun⟩ := ih B ((x :: (B ++ C)).drop B.length) (tc ++ [x])
      refine ⟨C', ?_, ?_⟩
      · rw [hC']
        simp [List.filter_append, hcov]
        omega
      · have hlt : A.length < A.length + 1 + B.length := by omega
        have hsub : A.length + 1 + B.length - 1 = A.length + B.length := by omega
        simp only [splitLoop, hlt, if_true, hget, hx, removeAt_mid, hsub]
        rw [hrun]
        simp [List.filter_append, hcov]
    | some is =>
      have hcov : coverable schema x = true := by simp [coverable, hx]
      obtain ⟨C', hC', hrun⟩ := ih (x :: B) C tc
      refine ⟨C', ?_, ?_⟩
      · rw [hC']
        simp [List.filter_append, hcov]
      · have hlt : A.length < A.length + 1 + B.length := by omega
        simp only [splitLoop, hlt, if_true, hget, hx]
        have e1 : A ++ [x] ++ B ++ C = A ++ (x :: B) ++ C := by simp
        have e2 : A.length + 1 + B.length = A.length + (x :: B).length := by
          simp only [List.length_cons]; omega
        rw [e1, e2, hrun]
        simp [List.filter_append, hcov]
        omega

/-- The loop always runs to its end on the predicate list of a filter node. -/
theorem splitLoop_run (schema : Schema) (P : List Expression) :
    ∃ C', C'.length = (P.filter (fun e => !coverable schema e)).length ∧
      splitLoop schema P.length ⟨P, P.length, []⟩
        = some ⟨P.filter (fun e => coverable schema e) ++ C',
                (P.filter (fun e => coverable schema e)).length,
                (P.filter (fun e => !coverable schema e)).reverse⟩ := by
  obtain ⟨C', hC', hrun⟩ := splitLoop_spec schema P [] [] []
  refine ⟨C', by simpa using hC', ?_⟩
  simpa using hrun

/-- What `splitSelectionByIndexColumns` returns on a filter node with predicate list `P`: the
node keeps a list of the same length that starts with the coverable predicates, `indexSel` is the
node itself unless no predicate is coverable, and `tableSel` is a new node over the other
predicates, from the last to the first, unless there is none. -/
theorem split_spec (h : Heap) (sel : Addr) (schema : Schema) (P : List Expression)
    (ch : List PhysicalPlan) (sch : Schema)
    (hsel : h.plans[sel]? = some ⟨.Selection P, ch, sch⟩) :
    ∃ C' h', C'.length = (P.filter (fun e => !coverable schema e)).length ∧
      Selection.splitSelectionByIndexColumns h sel schema
        = some (h',
            (if P.filter (fun e => coverable schema e) = [] then none else some sel),
            (if P.filter (fun e => !coverable schema e) = [] then none
              else some h.plans.length)) ∧
      h'.profiles = h.profiles ∧
      h'.plans = h.plans.set sel ⟨.Selection (P.filter (fun e => coverable schema e) ++ C'), ch, sch⟩
        ++ (if P.filter (fun e => !coverable schema e) = [] then []
            else [⟨.Selection (P.filter (fun e => !coverable schema e)).reverse, [], []⟩]) := by
  obtain ⟨C', hC', hrun⟩ := splitLoop_run schema P
  refine ⟨C', ⟨h.plans.set sel
      ⟨.Selection (P.filter (fun e => coverable schema e) ++ C'), ch, sch⟩
      ++ (if P.filter (fun e => !coverable schema e) = [] then []
          else [⟨.Selection (P.filter (fun e => !coverable schema e)).reverse, [], []⟩]),
      h.profiles⟩, hC', ?_, rfl, rfl⟩
  simp only [Selection.splitSelectionByIndexColumns, hsel, hrun, Heap.newPlan, ne_eq,
    List.length_eq_zero, List.reverse_eq_nil_iff, ite_not, List.length_set]
  by_cases ht : P.filter (fun e => !coverable schema e) = [] <;>
    by_cases hi : P.filter (fun e => coverable schema e) = [] <;>
    simp only [ht, hi, if_true, if_false, List.append_nil]

/-! ## Facts about float64 arithmetic -/

theorem floor_le_roundHalfEven (t : ℚ) : ⌊t⌋ ≤ roundHalfEven t := by
  unfold roundHalfEven
  split_ifs <;> omega

theorem roundHalfEven_le (t : ℚ) : roundHalfEven t ≤ ⌊t⌋ + 1 := by
  unfold roundHalfEven
  split_ifs <;> omega

theorem roundHalfEven_mono {s t : ℚ} (h : s ≤ t) : roundHalfEven s ≤ roundHalfEven t := by
  have hf : ⌊s⌋ ≤ ⌊t⌋ := Int.floor_mono h
  have hs := roundHalfEven_le s
  have ht := floor_le_roundHalfEven t
  rcases lt_or_eq_of_le hf with hlt | heq
  · omega
  · unfold roundHalfEven
    rw [heq]
    split_ifs <;> first | omega | (exfalso; linarith)

theorem roundHalfEven_intCast (k : ℤ) : roundHalfEven (k : ℚ) = k := by
  simp [roundHalfEven]

theorem ulp_pos (q : ℚ) : 0 < float64.ulp q := zpow_pos (by norm_num) _

theorem round_le_of_le_grid (q : ℚ) (k : ℤ) (h : q ≤ (k : ℚ) * float64.ulp q) :
    float64.round q ≤ (k : ℚ) * float64.ulp q := by
  have hu := ulp_pos q
  have h1 : q / float64.ulp q ≤ (k : ℚ) := (div_le_iff₀ hu).mpr h
  have h2 : roundHalfEven (q / float64.ulp q) ≤ k := by
    have := roundHalfEven_mono h1
    rwa [roundHalfEven_intCast] at this
  have h3 : (roundHalfEven (q / float64.ulp q) : ℚ) ≤ (k : ℚ) := by exact_mod_cast h2
  exact mul_le_mul_of_nonneg_right h3 hu.le

theorem le_round_of_grid_le (q : ℚ) (k : ℤ) (h : (k : ℚ) * float64.ulp q ≤ q) :
    (k : ℚ) * float64.ulp q ≤ float64.round q := by
  have hu := ulp_pos q
  have h1 : (k : ℚ) ≤ q / float64.ulp q := (le_div_iff₀ hu).mpr h
  have h2 : k ≤ roundHalfEven (q / float64.ulp q) := by
    have := roundHalfEven_mono h1
    rwa [roundHalfEven_intCast] at this
  have h3 : (k : ℚ) ≤ (roundHalfEven (q / float64.ulp q) : ℚ) := by exact_mod_cast h2
  exact mul_le_mul_of_nonneg_right h3 hu.le

theorem two_zpow_succ_eq (q : ℚ) :
    (2 : ℚ) ^ (float64.expo q + 1) = ((2 ^ 53 : ℤ) : ℚ) * float64.ulp q := by
  unfold float64.ulp
  have : float64.expo q + 1 = 53 + (float64.expo q - 52) := by ring
  rw [this, zpow_add₀ (by norm_num)]
  norm_num

theorem two_zpow_eq (q : ℚ) :
    (2 : ℚ) ^ float64.expo q = ((2 ^ 52 : ℤ) : ℚ) * float64.ulp q := by
  unfold float64.ulp
  have : float64.expo q = 52 + (float64.expo q - 52) := by ring
  conv_lhs => rw [this]
  rw [zpow_add₀ (by norm_num)]
  norm_num

theorem abs_lt_two_zpow (q : ℚ) : |q| < (2 : ℚ) ^ (float64.expo q + 1) := by
  have h1 : |q| < ((2 : ℕ) : ℚ) ^ (Int.log 2 |q| + 1) := Int.lt_zpow_succ_log_self (by norm_num) _
  have h2 : ((2 : ℕ) : ℚ) ^ (Int.log 2 |q| + 1) ≤ (2 : ℚ) ^ (float64.expo q + 1) := by
    apply zpow_le_zpow_right₀ (by norm_num)
    unfold float64.expo
    have := le_max_left (Int.log 2 |q|) (-1022)
    omega
  exact lt_of_lt_of_le h1 h2

theorem two_zpow_le_abs (q : ℚ) (hq : q ≠ 0) (he : float64.expo q = Int.log 2 |q|) :
    (2 : ℚ) ^ float64.expo q ≤ |q| := by
  rw [he]
  have := Int.zpow_log_le_self (b := 2) (r := |q|) (by norm_num) (abs_pos.mpr hq)
  simpa using this

theorem expo_mono {x y : ℚ} (hx : x ≠ 0) (h : |x| ≤ |y|) : float64.expo x ≤ float64.expo y := by
  unfold float64.expo
  exact max_le_max (Int.log_mono_right (abs_pos.mpr hx) h) le_rfl

theorem expo_eq_log_of_lt {x y : ℚ} (h : float64.expo x < float64.expo y) :
    float64.expo y = Int.log 2 |y| := by
  unfold float64.expo at *
  have := le_max_right (Int.log 2 |x|) (-1022)
  rcases max_cases (Int.log 2 |y|) (-1022) with ⟨h1, _⟩ | ⟨h1, _⟩
  · exact h1
  · omega

theorem round_zero : float64.round 0 = 0 := by
  simp [float64.round, roundHalfEven]

theorem round_nonneg {q : ℚ} (hq : 0 ≤ q) : 0 ≤ float64.round q := by
  have := le_round_of_grid_le q 0 (by simpa using hq)
  simpa using this

theorem round_nonpos {q : ℚ} (hq : q ≤ 0) : float64.round q ≤ 0 := by
  have := round_le_of_le_grid q 0 (by simpa using hq)
  simpa using this

theorem round_same_expo {x y : ℚ} (h : x ≤ y) (he : float64.expo x = float64.expo y) :
    float64.round x ≤ float64.round y := by
  have hu : float64.ulp x = float64.ulp y := by unfold float64.ulp; rw [he]
  unfold float64.round
  rw [hu]
  have hpos := ulp_pos y
  have h1 : x / float64.ulp y ≤ y / float64.ulp y := div_le_div_of_nonneg_right h hpos.le
  have h2 := roundHalfEven_mono h1
  have h3 : (roundHalfEven (x / float64.ulp y) : ℚ) ≤ (roundHalfEven (y / float64.ulp y) : ℚ) := by
    exact_mod_cast h2
  exact mul_le_mul_of_nonneg_right h3 hpos.le

theorem round_mono {x y : ℚ} (h : x ≤ y) : float64.round x ≤ float64.round y := by
  rcases le_or_lt x 0 with hx0 | hx0
  · rcases le_or_lt 0 y with hy0 | hy0
    · exact le_trans (round_nonpos hx0) (round_nonneg hy0)
    · -- x ≤ y < 0
      have hyne : y ≠ 0 := ne_of_lt hy0
      have hxne : x ≠ 0 := ne_of_lt (lt_of_le_of_lt h hy0)
      have habs : |y| ≤ |x| := by
        rw [abs_of_neg hy0, abs_of_neg (lt_of_le_of_lt h hy0)]
        linarith
      have hexp := expo_mono hyne habs
      rcases lt_or_eq_of_le hexp with hlt | heq
      · have hlog := expo_eq_log_of_lt hlt
        have hx1 : (2 : ℚ) ^ float64.expo x ≤ |x| := two_zpow_le_abs x hxne hlog
        rw [abs_of_neg (lt_of_le_of_lt h hy0)] at hx1
        have hx2 : float64.round x ≤ ((-(2 ^ 52) : ℤ) : ℚ) * float64.ulp x := by
          apply round_le_of_le_grid
          have := two_zpow_eq x
          push_cast at this ⊢
          linarith
        have hy1 : |y| < (2 : ℚ) ^ (float64.expo y + 1) := abs_lt_two_zpow y
        rw [abs_of_neg hy0] at hy1
        have hy2 : ((-(2 ^ 53) : ℤ) : ℚ) * float64.ulp y ≤ float64.round y := by
          apply le_round_of_grid_le
          have := two_zpow_succ_eq y
          push_cast at this ⊢
          linarith
        have hmid : (2 : ℚ) ^ (float64.expo y + 1) ≤ (2 : ℚ) ^ float64.expo x :=
          zpow_le_zpow_right₀ (by norm_num) (by omega)
        have e1 := two_zpow_eq x
        have e2 := two_zpow_succ_eq y
        push_cast at hx2 hy2 e1 e2
        linarith
      · exact round_same_expo h heq.symm
  · -- 0 < x ≤ y
    have hy0 : 0 < y := lt_of_lt_of_le hx0 h
    have hxne : x ≠ 0 := ne_of_gt hx0
    have hyne : y ≠ 0 := ne_of_gt hy0
    have habs : |x| ≤ |y| := by
      rw [abs_of_pos hx0, abs_of_pos hy0]
      exact h
    have hexp := expo_mono hxne habs
    rcases lt_or_eq_of_le hexp with hlt | heq
    · have hlog := expo_eq_log_of_lt hlt
      have hy1 : (2 : ℚ) ^ float64.expo y ≤ |y| := two_zpow_le_abs y hyne hlog
      rw [abs_of_pos hy0] at hy1
      have hy2 : ((2 ^ 52 : ℤ) : ℚ) * float64.ulp y ≤ float64.round y := by
        apply le_round_of_grid_le
        rw [← two_zpow_eq]
        exact hy1
      have hx1 : |x| < (2 : ℚ) ^ (float64.expo x + 1) := abs_lt_two_zpow x
      rw [abs_of_pos hx0] at hx1
      have hx2 : float64.round x ≤ ((2 ^ 53 : ℤ) : ℚ) * float64.ulp x := by
        apply round_le_of_le_grid
        rw [← two_zpow_succ_eq]
        exact hx1.le
      have hmid : (2 : ℚ) ^ (float64.expo x + 1) ≤ (2 : ℚ) ^ float64.expo y :=
        zpow_le_zpow_right₀ (by norm_num) (by omega)
      rw [← two_zpow_succ_eq] at hx2
      rw [← two_zpow_eq] at hy2
      linarith
    · exact round_same_expo h heq

theorem expo_eq_of_bracket (q : ℚ) (e : ℤ) (he : -1022 ≤ e) (h1 : (2 : ℚ) ^ e ≤ |q|)
    (h2 : |q| < (2 : ℚ) ^ (e + 1)) : float64.expo q = e := by
  have hpos : 0 < |q| := lt_of_lt_of_le (zpow_pos (by norm_num) e) h1
  have hlog : Int.log 2 |q| = e := by
    apply le_antisymm
    · have := (Int.lt_zpow_iff_log_lt (b := 2) (by norm_num) hpos (x := e + 1)).mp
        (by simpa using h2)
      omega
    · exact (Int.zpow_le_iff_le_log (b := 2) (by norm_num) hpos).mp (by simpa using h1)
  unfold float64.expo
  rw [hlog]
  exact max_eq_left he

theorem round_eq_of_bracket (q : ℚ) (e : ℤ) (he : -1022 ≤ e) (h1 : (2 : ℚ) ^ e ≤ |q|)
    (h2 : |q| < (2 : ℚ) ^ (e + 1)) :
    float64.round q = (roundHalfEven (q / (2 : ℚ) ^ (e - 52)) : ℚ) * (2 : ℚ) ^ (e - 52) := by
  unfold float64.round float64.ulp
  rw [expo_eq_of_bracket q e he h1 h2]

theorem roundHalfEven_down (t : ℚ) (n : ℤ) (h1 : (n : ℚ) ≤ t) (h2 : t - n < 1 / 2) :
    roundHalfEven t = n := by
  have hf : ⌊t⌋ = n := Int.floor_eq_iff.mpr ⟨h1, by linarith⟩
  unfold roundHalfEven
  rw [hf, if_pos h2]

theorem roundHalfEven_up (t : ℚ) (n : ℤ) (h1 : 1 / 2 < t - n) (h2 : t < n + 1) :
    roundHalfEven t = n + 1 := by
  have hf : ⌊t⌋ = n := Int.floor_eq_iff.mpr ⟨by linarith, h2⟩
  unfold roundHalfEven
  rw [hf, if_neg (not_lt.mpr h1.le), if_pos h1]

theorem roundHalfEven_tie (t : ℚ) (n : ℤ) (h : t - n = 1 / 2) :
    roundHalfEven t = if n % 2 = 0 then n else n + 1 := by
  have hf : ⌊t⌋ = n := Int.floor_eq_iff.mpr ⟨by linarith, by linarith⟩
  unfold roundHalfEven
  rw [hf, if_neg (by rw [h]; exact lt_irrefl _), if_neg (by rw [h]; exact lt_irrefl _)]

theorem addTimes_ge {c x : ℚ} (hc : isFloat64 c) (hx : 0 ≤ x) (j : Nat) :
    c ≤ float64.addTimes j c x := by
  induction j with
  | zero => exact le_rfl
  | succ j ih =>
    have hsum : c ≤ float64.addTimes j c x + x := by linarith
    have := round_mono hsum
    rw [hc] at this
    exact this

theorem mul_ofUint64_nonneg (n : Nat) {f : ℚ} (hf : 0 ≤ f) :
    0 ≤ float64.mul (float64.ofUint64 n) f := by
  apply round_nonneg
  exact mul_nonneg (round_nonneg (Nat.cast_nonneg n)) hf

theorem addTimes_exact (c x : ℚ) :
    ∀ j : Nat, (∀ i : Nat, i < j → isFloat64 (c + ((i : ℚ) + 1) * x)) →
      float64.addTimes j c x = c + (j : ℚ) * x := by
  intro j
  induction j with
  | zero =>
    intro _
    simp [float64.addTimes]
  | succ j ih =>
    intro hrep
    have hprev := ih (fun i hi => hrep i (Nat.lt_succ_of_lt hi))
    have hlast := hrep j (Nat.lt_succ_self j)
    simp only [float64.addTimes, float64.add, hprev]
    have heq : c + (j : ℚ) * x + x = c + ((j : ℚ) + 1) * x := by ring
    rw [heq, hlast]
    push_cast
    ring

/-- A rational on the float64 grid of its binade is a float64 value. -/
theorem round_of_grid (q : ℚ) (e m : ℤ) (he : -1022 ≤ e) (h1 : (2 : ℚ) ^ e ≤ |q|)
    (h2 : |q| < (2 : ℚ) ^ (e + 1)) (hm : q / (2 : ℚ) ^ (e - 52) = (m : ℚ)) :
    float64.round q = q := by
  rw [round_eq_of_bracket q e he h1 h2, hm, roundHalfEven_intCast, ← hm]
  have hne : (2 : ℚ) ^ (e - 52) ≠ 0 := (zpow_pos (by norm_num) _).ne'
  field_simp

theorem round_one : float64.round 1 = 1 :=
  round_of_grid 1 0 (2 ^ 52) (by norm_num) (by norm_num) (by norm_num) (by norm_num)

theorem eval_scaled_count :
    float64.toUint64 (float64.mul (float64.ofUint64 1688849860263936)
      exampleFactors.selectionFactor) = 1351079888211149 := by
  have h1 : float64.ofUint64 1688849860263936 = 1688849860263936 := by
    unfold float64.ofUint64
    exact round_of_grid _ 50 (3 * 2 ^ 51) (by norm_num) (by norm_num [abs_of_pos])
      (by norm_num [abs_of_pos]) (by norm_num)
  have h2 : float64.mul 1688849860263936 exampleFactors.selectionFactor = 1351079888211149 := by
    unfold float64.mul exampleFactors
    rw [round_eq_of_bracket _ 50 (by norm_num) (by norm_num [abs_of_pos])
      (by norm_num [abs_of_pos])]
    rw [roundHalfEven_tie _ 5404319552844595 (by norm_num)]
    norm_num
  rw [h1, h2]
  unfold float64.toUint64
  rw [show ⌊(1351079888211149 : ℚ)⌋₊ = 1351079888211149 from Nat.floor_natCast 1351079888211149]
  norm_num

theorem eval_finish_cost :
    float64.add 9007199254740992 (float64.mul (float64.ofUint64 1) exampleFactors.netWorkFactor)
      = 9007199254740994 := by
  have h1 : float64.ofUint64 1 = 1 := by
    unfold float64.ofUint64
    simpa using round_one
  have h2 : float64.mul 1 exampleFactors.netWorkFactor = 3 / 2 := by
    unfold float64.mul exampleFactors
    have : float64.round (3 / 2) = 3 / 2 :=
      round_of_grid _ 0 (3 * 2 ^ 51) (by norm_num) (by norm_num [abs_of_pos])
        (by norm_num [abs_of_pos]) (by norm_num)
    simpa using this
  rw [h1, h2]
  unfold float64.add
  rw [round_eq_of_bracket _ 53 (by norm_num) (by norm_num [abs_of_pos])
    (by norm_num [abs_of_pos])]
  rw [roundHalfEven_up _ 4503599627370496 (by norm_num) (by norm_num)]
  norm_num

theorem eval_cpu_charge :
    float64.mul (float64.ofUint64 1) exampleFactors.cpuFactor
      = 8106479329266893 / 9007199254740992 := by
  have h1 : float64.ofUint64 1 = 1 := by
    unfold float64.ofUint64
    simpa using round_one
  rw [h1]
  unfold float64.mul exampleFactors
  have : float64.round (8106479329266893 / 9007199254740992)
      = 8106479329266893 / 9007199254740992 :=
    round_of_grid _ (-1) 8106479329266893 (by norm_num) (by norm_num [abs_of_pos])
      (by norm_num [abs_of_pos]) (by norm_num)
  simpa using this

theorem eval_charge_twice :
    float64.addTimes 2 (3602879701896397 / 36028797018963968)
      (8106479329266893 / 9007199254740992) = 4278419646001971 / 2251799813685248 := by
  have h1 : float64.add (3602879701896397 / 36028797018963968)
      (8106479329266893 / 9007199254740992) = 1 := by
    unfold float64.add
    rw [round_eq_of_bracket _ 0 (by norm_num) (by norm_num [abs_of_pos])
      (by norm_num [abs_of_pos])]
    rw [roundHalfEven_down _ 4503599627370496 (by norm_num) (by norm_num)]
    norm_num
  have h2 : float64.add 1 (8106479329266893 / 9007199254740992)
      = 4278419646001971 / 2251799813685248 := by
    unfold float64.add
    rw [round_eq_of_bracket _ 0 (by norm_num) (by norm_num [abs_of_pos])
      (by norm_num [abs_of_pos])]
    rw [roundHalfEven_tie _ 8556839292003942 (by norm_num)]
    norm_num
  simp only [float64.addTimes, h1, h2]

theorem eval_charge_formula :
    float64.add (3602879701896397 / 36028797018963968)
      (float64.mul 2 (8106479329266893 / 9007199254740992))
        = 8556839292003943 / 4503599627370496 := by
  have h1 : float64.mul 2 (8106479329266893 / 9007199254740992)
      = 8106479329266893 / 4503599627370496 := by
    unfold float64.mul
    have : float64.round (8106479329266893 / 4503599627370496)
        = 8106479329266893 / 4503599627370496 :=
      round_of_grid _ 0 8106479329266893 (by norm_num) (by norm_num [abs_of_pos])
        (by norm_num [abs_of_pos]) (by norm_num)
    have e : (2 : ℚ) * (8106479329266893 / 9007199254740992)
        = 8106479329266893 / 4503599627370496 := by norm_num
    rw [e, this]
  rw [h1]
  unfold float64.add
  rw [round_eq_of_bracket _ 0 (by norm_num) (by norm_num [abs_of_pos])
    (by norm_num [abs_of_pos])]
  rw [roundHalfEven_up _ 8556839292003942 (by norm_num) (by norm_num)]
  norm_num

/-- Every natural number below `2 ^ 53` is a float64 value. -/
theorem isFloat64_natCast (n : ℕ) (hn : n < 2 ^ 53) : isFloat64 (n : ℚ) := by
  rcases Nat.eq_zero_or_pos n with rfl | hpos
  · simpa [isFloat64] using round_zero
  · have hne : n ≠ 0 := hpos.ne'
    have h1 : 2 ^ Nat.log 2 n ≤ n := Nat.pow_log_le_self 2 hne
    have h2 : n < 2 ^ (Nat.log 2 n + 1) := Nat.lt_pow_succ_log_self (by norm_num) n
    have he : Nat.log 2 n < 53 := Nat.log_lt_of_lt_pow hne hn
    have h0 : (0 : ℚ) ≤ (n : ℚ) := Nat.cast_nonneg n
    unfold isFloat64
    apply round_of_grid (n : ℚ) (Nat.log 2 n : ℤ) ((n * 2 ^ (52 - Nat.log 2 n) : ℕ) : ℤ)
    · omega
    · rw [abs_of_nonneg h0, zpow_natCast]
      exact_mod_cast h1
    · rw [abs_of_nonneg h0]
      have : ((Nat.log 2 n : ℤ) + 1) = ((Nat.log 2 n + 1 : ℕ) : ℤ) := by push_cast; ring
      rw [this, zpow_natCast]
      exact_mod_cast h2
    · have : ((Nat.log 2 n : ℤ) - 52) = -((52 - Nat.log 2 n : ℕ) : ℤ) := by omega
      rw [this, zpow_neg, zpow_natCast, div_inv_eq_mul]
      push_cast
      ring

/-! ## Facts about the heap and the profile methods -/

theorem set_concat_length {α : Type} (l : List α) (x y : α) :
    (l ++ [x]).set l.length y = l ++ [y] := by
  induction l with
  | nil => rfl
  | cons a l ih => simp [List.set, ih]

theorem getElem?_concat_of_some {α : Type} (l : List α) (x v : α) (i : Nat)
    (hi : l[i]? = some v) : (l ++ [x])[i]? = some v := by
  have hlt : i < l.length := by
    by_contra hge
    rw [List.getElem?_eq_none (Nat.le_of_not_lt hge)] at hi
    cases hi
  rw [List.getElem?_append_left hlt, hi]

theorem SetChildren_spec (h : Heap) (a : Addr) (n : PlanNode) (children : List PhysicalPlan)
    (ha : h.plans[a]? = some n) :
    SetChildren h (some a) children
      = some ⟨h.plans.set a { n with children := children }, h.profiles⟩ := by
  simp [SetChildren, ha]

theorem cop_copy_spec (h : Heap) (t : Addr) (c : copTaskProfile)
    (ht : h.profiles[t]? = some (.cop c)) :
    copTaskProfile.copy h t = some (⟨h.plans, h.profiles ++ [.cop c]⟩, h.profiles.length) := by
  simp [copTaskProfile.copy, ht, Heap.newProfile]

theorem root_copy_spec (h : Heap) (t : Addr) (r : rootTaskProfile)
    (ht : h.profiles[t]? = some (.root r)) :
    rootTaskProfile.copy h t = some (⟨h.plans, h.profiles ++ [.root r]⟩, h.profiles.length) := by
  simp [rootTaskProfile.copy, ht, Heap.newProfile]

/-- `copTaskProfile.attachPlan` on a non-nil plan node: a new profile whose active subtree is
the node, and the node's only child is the previous active subtree. -/
theorem cop_attachPlan_spec (h : Heap) (t a : Addr) (c : copTaskProfile) (n : PlanNode)
    (ht : h.profiles[t]? = some (.cop c)) (ha : h.plans[a]? = some n) :
    copTaskProfile.attachPlan h t (some a)
      = some (⟨h.plans.set a
                { n with children := [if c.addPlan2Index then c.indexPlan else c.tablePlan] },
              h.profiles ++ [.cop (if c.addPlan2Index then { c with indexPlan := some a }
                                    else { c with tablePlan := some a })]⟩,
              h.profiles.length) := by
  have hcell : (h.profiles ++ [taskProfile.cop c])[h.profiles.length]? = some (.cop c) :=
    List.getElem?_concat_length _ _
  cases hflag : c.addPlan2Index <;>
    simp [copTaskProfile.attachPlan, cop_copy_spec h t c ht, hcell, hflag, SetChildren, ha,
      Heap.setProfile, set_concat_length]

/-- `rootTaskProfile.attachPlan` on a non-nil plan node. -/
theorem root_attachPlan_spec (h : Heap) (t a : Addr) (r : rootTaskProfile) (n : PlanNode)
    (ht : h.profiles[t]? = some (.root r)) (ha : h.plans[a]? = some n) :
    rootTaskProfile.attachPlan h t (some a)
      = some (⟨h.plans.set a { n with children := [r.plan] },
              h.profiles ++ [.root { r with plan := some a }]⟩,
              h.profiles.length) := by
  have hcell : (h.profiles ++ [taskProfile.root r])[h.profiles.length]? = some (.root r) :=
    List.getElem?_concat_length _ _
  simp [rootTaskProfile.attachPlan, root_copy_spec h t r ht, hcell, SetChildren, ha,
    Heap.setProfile, set_concat_length]

/-- `Limit.attach2TaskProfile` on a cop task. -/
theorem limit_attach_cop_spec (h : Heap) (limit p : Addr) (ps : List Addr) (c : copTaskProfile)
    (L : Nat) (ch : List PhysicalPlan) (sch : Schema)
    (hp : h.profiles[p]? = some (.cop c)) (hl : h.plans[limit]? = some ⟨.Limit L, ch, sch⟩) :
    Limit.attach2TaskProfile h limit (p :: ps)
      = some (⟨h.plans.set limit
                ⟨.Limit L, [if c.addPlan2Index then c.indexPlan else c.tablePlan], sch⟩,
              h.profiles ++ [.cop (if c.addPlan2Index then { c with indexPlan := some limit, cnt := L }
                                    else { c with tablePlan := some limit, cnt := L })]⟩,
              h.profiles.length) := by
  have hlt : limit < h.plans.length := by
    by_contra hge
    rw [List.getElem?_eq_none (Nat.le_of_not_lt hge)] at hl
    cases hl
  cases hflag : c.addPlan2Index <;>
    simp [Limit.attach2TaskProfile, taskProfile.attachPlan, hp,
      cop_attachPlan_spec h p limit c _ hp hl, hflag, hlt, taskProfile.setCount,
      copTaskProfile.setCount, Heap.setProfile, set_concat_length]

/-- `Limit.attach2TaskProfile` on a root task. -/
theorem limit_attach_root_spec (h : Heap) (limit p : Addr) (ps : List Addr) (r : rootTaskProfile)
    (L : Nat) (ch : List PhysicalPlan) (sch : Schema)
    (hp : h.profiles[p]? = some (.root r)) (hl : h.plans[limit]? = some ⟨.Limit L, ch, sch⟩) :
    Limit.attach2TaskProfile h limit (p :: ps)
      = some (⟨h.plans.set limit ⟨.Limit L, [r.plan], sch⟩,
              h.profiles ++ [.root { r with plan := some limit, cnt := L }]⟩,
              h.profiles.length) := by
  have hlt : limit < h.plans.length := by
    by_contra hge
    rw [List.getElem?_eq_none (Nat.le_of_not_lt hge)] at hl
    cases hl
  simp [Limit.attach2TaskProfile, taskProfile.attachPlan, hp,
    root_attachPlan_spec h p limit r _ hp hl, hlt, taskProfile.setCount,
    rootTaskProfile.setCount, Heap.setProfile, set_concat_length]

/-- `Selection.attach2TaskProfile` on a root task: the copy gets the cost and the count; no plan
node is touched and the field `plan` is the one of the receiver. -/
theorem selection_attach_root_spec (k : CostFactors) (h : Heap) (sel p : Addr) (ps : List Addr)
    (r : rootTaskProfile) (hp : h.profiles[p]? = some (.root r)) :
    Selection.attach2TaskProfile k h sel (p :: ps)
      = some (⟨h.plans,
              h.profiles ++ [.root { r with
                cst := float64.add r.cst (float64.mul (float64.ofUint64 r.cnt) k.cpuFactor)
                cnt := float64.toUint64 (float64.mul (float64.ofUint64 r.cnt) k.selectionFactor) }]⟩,
              h.profiles.length) := by
  simp [Selection.attach2TaskProfile, taskProfile.copy, hp, root_copy_spec h p r hp,
    Heap.setProfile, set_concat_length]

/-- `Selection.attach2TaskProfile` on a cop task that is on the table side. -/
theorem selection_attach_table_side_spec (k : CostFactors) (h : Heap) (sel p : Addr)
    (ps : List Addr) (c : copTaskProfile) (n : PlanNode)
    (hp : h.profiles[p]? = some (.cop c)) (hflag : c.addPlan2Index = false)
    (hsel : h.plans[sel]? = some n) :
    Selection.attach2TaskProfile k h sel (p :: ps)
      = some (⟨h.plans.set sel { n with children := [c.tablePlan] },
              h.profiles ++ [.cop { c with
                tablePlan := some sel
                cst := float64.add c.cst (float64.mul (float64.ofUint64 c.cnt) k.cpuFactor)
                cnt := float64.toUint64 (float64.mul (float64.ofUint64 c.cnt) k.selectionFactor) }]⟩,
              h.profiles.length) := by
  simp [Selection.attach2TaskProfile, taskProfile.copy, hp, cop_copy_spec h p c hp, hflag,
    SetChildren, hsel, Heap.setProfile, set_concat_length]

/-- `Selection.attach2TaskProfile` on an index-side cop task without a table subtree. -/
theorem selection_attach_index_only_spec (k : CostFactors) (h : Heap) (sel p : Addr)
    (ps : List Addr) (c : copTaskProfile) (n : PlanNode)
    (hp : h.profiles[p]? = some (.cop c)) (hflag : c.addPlan2Index = true)
    (htab : c.tablePlan = none) (hsel : h.plans[sel]? = some n) :
    Selection.attach2TaskProfile k h sel (p :: ps)
      = some (⟨h.plans.set sel { n with children := [c.indexPlan] },
              h.profiles ++ [.cop { c with
                indexPlan := some sel
                cst := float64.add c.cst (float64.mul (float64.ofUint64 c.cnt) k.cpuFactor)
                cnt := float64.toUint64 (float64.mul (float64.ofUint64 c.cnt) k.selectionFactor) }]⟩,
              h.profiles.length) := by
  simp [Selection.attach2TaskProfile, taskProfile.copy, hp, cop_copy_spec h p c hp, hflag,
    selectSides, htab, attachIndexSel, attachTableSel, SetChildren, hsel, Heap.setProfile,
    set_concat_length]

/-- `Selection.attach2TaskProfile` on an index-side cop task with a table subtree (a double
read): the filter is split against the schema of the index subtree.  With `I` the coverable
predicates and `T` the others, the new profile gets the filter node as index subtree unless `I`
is empty, a new filter node as table subtree (and the table side) unless `T` is empty, one
float64 addition of `float64(cnt) * cpuFactor` for each of the two that happens, and the count
`uint64(float64(cnt) * selectionFactor)`. -/
theorem selection_attach_split_spec (k : CostFactors) (h : Heap) (sel p ip tp : Addr)
    (ps : List Addr) (c : copTaskProfile) (nip : PlanNode) (P : List Expression)
    (ch : List PhysicalPlan) (sch : Schema)
    (hp : h.profiles[p]? = some (.cop c)) (hflag : c.addPlan2Index = true)
    (htab : c.tablePlan = some tp) (hidx : c.indexPlan = some ip)
    (hnip : h.plans[ip]? = some nip)
    (hsel : h.plans[sel]? = some ⟨.Selection P, ch, sch⟩) :
    ∃ h' C', Selection.attach2TaskProfile k h sel (p :: ps) = some (h', h.profiles.length) ∧
      C'.length = (P.filter (fun e => !coverable nip.schema e)).length ∧
      h'.profiles = h.profiles ++ [.cop
        { indexPlan := if P.filter (fun e => coverable nip.schema e) = [] then some ip
            else some sel
          tablePlan := if P.filter (fun e => !coverable nip.schema e) = [] then some tp
            else some h.plans.length
          cst := float64.addTimes
            ((if P.filter (fun e => coverable nip.schema e) = [] then 0 else 1)
              + (if P.filter (fun e => !coverable nip.schema e) = [] then 0 else 1))
            c.cst (float64.mul (float64.ofUint64 c.cnt) k.cpuFactor)
          cnt := float64.toUint64 (float64.mul (float64.ofUint64 c.cnt) k.selectionFactor)
          addPlan2Index := decide (P.filter (fun e => !coverable nip.schema e) = []) }] ∧
      h'.plans = (h.plans.set sel
          ⟨.Selection (P.filter (fun e => coverable nip.schema e) ++ C'),
            if P.filter (fun e => coverable nip.schema e) = [] then ch else [some ip], sch⟩)
        ++ (if P.filter (fun e => !coverable nip.schema e) = [] then []
            else [⟨.Selection (P.filter (fun e => !coverable nip.schema e)).reverse,
              [some tp], []⟩]) := by
  have hsel_lt : sel < h.plans.length := by
    by_contra hge
    rw [List.getElem?_eq_none (Nat.le_of_not_lt hge)] at hsel
    cases hsel
  have hcell : (h.profiles ++ [taskProfile.cop c])[h.profiles.length]? = some (.cop c) :=
    List.getElem?_concat_length _ _
  obtain ⟨C', h2, hC', hsplit, hprof2, hplans2⟩ :=
    split_spec ⟨h.plans, h.profiles ++ [.cop c]⟩ sel nip.schema P ch sch hsel
  have hsides : selectSides ⟨h.plans, h.profiles ++ [.cop c]⟩ sel c
      = some (h2,
          (if P.filter (fun e => coverable nip.schema e) = [] then none else some sel),
          (if P.filter (fun e => !coverable nip.schema e) = [] then none
            else some h.plans.length)) := by
    simp [selectSides, htab, hidx, PlanSchema, hnip, hsplit]
  have h2eq : h2 = ⟨h.plans.set sel
        ⟨.Selection (P.filter (fun e => coverable nip.schema e) ++ C'), ch, sch⟩
        ++ (if P.filter (fun e => !coverable nip.schema e) = [] then []
            else [⟨.Selection (P.filter (fun e => !coverable nip.schema e)).reverse, [], []⟩]),
        h.profiles ++ [.cop c]⟩ := by
    cases h2
    simp only [Heap.mk.injEq]
    exact ⟨hplans2, hprof2⟩
  subst h2eq
  have hstart : Selection.attach2TaskProfile k h sel (p :: ps)
      = (match selectSides ⟨h.plans, h.profiles ++ [.cop c]⟩ sel c with
          | none => none
          | some (h2, indexSel, tableSel) =>
            match attachIndexSel k h2 c indexSel with
            | none => none
            | some (h3, t1) =>
              match attachTableSel k h3 t1 tableSel with
              | none => none
              | some (h4, t2) =>
                some (h4.setProfile h.profiles.length
                  (.cop { t2 with cnt := float64.toUint64 (float64.mul (float64.ofUint64 t2.cnt) k.selectionFactor) }),
                  h.profiles.length)) := by
    simp [Selection.attach2TaskProfile, taskProfile.copy, hp, cop_copy_spec h p c hp, hcell,
      hflag]
  rw [hstart, hsides]
  clear hstart hsides hsplit hprof2 hplans2
  generalize P.filter (fun e => coverable nip.schema e) = I at *
  generalize P.filter (fun e => !coverable nip.schema e) = T at *
  have hnew : ∀ (x : PlanNode) (y : PlanNode),
      ((h.plans.set sel x) ++ [y] : List PlanNode)[h.plans.length]? = some y := by
    intro x y
    rw [List.getElem?_append_right (by simp)]
    simp
  have hold : ∀ (x : PlanNode) (y : PlanNode),
      ((h.plans.set sel x) ++ [y] : List PlanNode)[sel]? = some x := by
    intro x y
    rw [List.getElem?_append_left (by simpa using hsel_lt)]
    exact List.getElem?_set_self hsel_lt
  have hset : ∀ (x x' y : PlanNode),
      ((h.plans.set sel x) ++ [y] : List PlanNode).set sel x' = h.plans.set sel x' ++ [y] := by
    intro x x' y
    rw [List.set_append_left _ _ (by simpa using hsel_lt), List.set_set]
  cases T with
  | nil =>
    cases I with
    | nil =>
      simp only [if_true, attachIndexSel, attachTableSel]
      refine ⟨_, C', rfl, hC', ?_, ?_⟩
      · simp [Heap.setProfile, set_concat_length, hflag, htab, hidx, float64.addTimes]
      · simp [Heap.setProfile]
    | cons i I =>
      simp only [if_true, if_false, attachIndexSel, attachTableSel, SetChildren,
        List.append_nil, List.getElem?_set_self hsel_lt, reduceCtorEq]
      refine ⟨_, C', rfl, hC', ?_, ?_⟩
      · simp [Heap.setProfile, set_concat_length, hflag, htab, hidx, float64.addTimes]
      · simp [Heap.setProfile, hidx]
  | cons t T =>
    cases I with
    | nil =>
      simp only [if_true, if_false, attachIndexSel, attachTableSel, SetChildren, hnew,
        reduceCtorEq]
      refine ⟨_, C', rfl, hC', ?_, ?_⟩
      · simp [Heap.setProfile, set_concat_length, hflag, htab, hidx, float64.addTimes]
      · simp [Heap.setProfile, htab]
    | cons i I =>
      simp only [if_true, if_false, attachIndexSel, attachTableSel, SetChildren, hnew, hold,
        hset, reduceCtorEq]
      refine ⟨_, C', rfl, hC', ?_, ?_⟩
      · simp [Heap.setProfile, set_concat_length, hflag, htab, hidx, float64.addTimes]
      · simp [Heap.setProfile, htab, hidx]

theorem count_of_cell (h : Heap) (t : Addr) (v : taskProfile) (ht : h.profiles[t]? = some v) :
    taskProfile.count h t = some (profileCount v) := by
  cases v <;>
    simp [taskProfile.count, copTaskProfile.count, rootTaskProfile.count, ht, profileCount]

theorem cost_of_cell (h : Heap) (t : Addr) (v : taskProfile) (ht : h.profiles[t]? = some v) :
    taskProfile.cost h t = some (profileCost v) := by
  cases v <;>
    simp [taskProfile.cost, copTaskProfile.cost, rootTaskProfile.cost, ht, profileCost]

theorem lt_of_getElem?_eq_some {α : Type} (l : List α) (i : Nat) (v : α)
    (hi : l[i]? = some v) : i < l.length := by
  by_contra hge
  rw [List.getElem?_eq_none (Nat.le_of_not_lt hge)] at hi
  cases hi

theorem splittable_cop (h : Heap) (p tp : Addr) (c : copTaskProfile)
    (hp : h.profiles[p]? = some (.cop c)) (hflag : c.addPlan2Index = true)
    (htab : c.tablePlan = some tp) (hsp : splittable h p = true) :
    ∃ ip nip, c.indexPlan = some ip ∧ h.plans[ip]? = some nip := by
  unfold splittable at hsp
  simp only [hp, hflag, htab, ne_eq, reduceCtorEq, not_false_eq_true, and_self, if_true] at hsp
  cases hidx : c.indexPlan with
  | none => simp [hidx] at hsp
  | some ip =>
    simp only [hidx, decide_eq_true_eq] at hsp
    exact ⟨ip, h.plans[ip], rfl, List.getElem?_eq_getElem hsp⟩

/-- Every case of `Selection.attach2TaskProfile` at once: the call returns a new profile cell,
appended to the heap, whose count is `uint64(float64(cnt) * selectionFactor)` for the incoming
count and whose cost is the incoming cost after `j` float64 additions of
`float64(cnt) * cpuFactor`, for some `j ≤ 2`. -/
theorem selection_attach_summary (k : CostFactors) (h : Heap) (sel p : Addr) (ps : List Addr)
    (prof : taskProfile) (P : List Expression) (ch : List PhysicalPlan) (sch : Schema)
    (hp : h.profiles[p]? = some prof)
    (hsel : h.plans[sel]? = some ⟨.Selection P, ch, sch⟩)
    (hsp : splittable h p = true) :
    ∃ h' v, Selection.attach2TaskProfile k h sel (p :: ps) = some (h', h.profiles.length) ∧
      h'.profiles = h.profiles ++ [v] ∧
      profileCount v
        = float64.toUint64
            (float64.mul (float64.ofUint64 (profileCount prof)) k.selectionFactor) ∧
      ∃ j : ℕ, j ≤ 2 ∧
        profileCost v = float64.addTimes j (profileCost prof)
          (float64.mul (float64.ofUint64 (profileCount prof)) k.cpuFactor) := by
  cases prof with
  | root r =>
    exact ⟨_, _, selection_attach_root_spec k h sel p ps r hp, rfl, rfl, 1, by omega, rfl⟩
  | cop c =>
    cases hflag : c.addPlan2Index with
    | false =>
      exact ⟨_, _, selection_attach_table_side_spec k h sel p ps c _ hp hflag hsel, rfl, rfl,
        1, by omega, rfl⟩
    | true =>
      cases htab : c.tablePlan with
      | none =>
        exact ⟨_, _, selection_attach_index_only_spec k h sel p ps c _ hp hflag htab hsel,
          rfl, rfl, 1, by omega, rfl⟩
      | some tp =>
        obtain ⟨ip, nip, hidx, hnip⟩ := splittable_cop h p tp c hp hflag htab hsp
        obtain ⟨h', C', hrun, _, hprof, _⟩ :=
          selection_attach_split_spec k h sel p ip tp ps c nip P ch sch hp hflag htab hidx
            hnip hsel
        refine ⟨h', _, hrun, hprof, rfl, _, ?_, rfl⟩
        by_cases hI : P.filter (fun e => coverable nip.schema e) = [] <;>
          by_cases hT : P.filter (fun e => !coverable nip.schema e) = [] <;>
          simp [hI, hT]

theorem node_of_operator (h : Heap) (a : Addr) (o : Operator)
    (ho : h.operators[a]? = some o) : ∃ ch sch, h.plans[a]? = some ⟨o, ch, sch⟩ := by
  unfold Heap.operators at ho
  rw [List.getElem?_map] at ho
  cases hn : h.plans[a]? with
  | none => simp [hn] at ho
  | some n =>
    simp only [hn, Option.map_some', Option.some.injEq] at ho
    subst ho
    exact ⟨n.children, n.schema, rfl⟩

/-- Both cases of `Limit.attach2TaskProfile` at once: a new profile cell with the count of the
limit node and the cost of the receiver. -/
theorem limit_attach_summary (h : Heap) (limit p : Addr) (ps : List Addr) (prof : taskProfile)
    (L : Nat) (ch : List PhysicalPlan) (sch : Schema)
    (hp : h.profiles[p]? = some prof) (hl : h.plans[limit]? = some ⟨.Limit L, ch, sch⟩) :
    ∃ h' v, Limit.attach2TaskProfile h limit (p :: ps) = some (h', h.profiles.length) ∧
      h'.profiles = h.profiles ++ [v] ∧ profileCount v = L ∧
      profileCost v = profileCost prof := by
  cases prof with
  | root r =>
    exact ⟨_, _, limit_attach_root_spec h limit p ps r L ch sch hp hl, rfl, rfl, rfl⟩
  | cop c =>
    refine ⟨_, _, limit_attach_cop_spec h limit p ps c L ch sch hp hl, rfl, ?_, ?_⟩ <;>
      cases c.addPlan2Index <;> simp [profileCount, profileCost]

/-- Both cases of the interface call `attachPlan` at once: a new profile cell with the count
and the cost of the receiver. -/
theorem attachPlan_summary (h : Heap) (t a : Addr) (prof : taskProfile)
    (ht : h.profiles[t]? = some prof) (ha : a < h.plans.length) :
    ∃ h' v, taskProfile.attachPlan h t (some a) = some (h', h.profiles.length) ∧
      h'.profiles = h.profiles ++ [v] ∧ profileCount v = profileCount prof ∧
      profileCost v = profileCost prof := by
  have hnode : h.plans[a]? = some h.plans[a] := List.getElem?_eq_getElem ha
  cases prof with
  | root r =>
    have hrun := root_attachPlan_spec h t a r _ ht hnode
    have hdisp : taskProfile.attachPlan h t (some a) = rootTaskProfile.attachPlan h t (some a) := by
      simp only [taskProfile.attachPlan, ht]
    rw [← hdisp] at hrun
    exact ⟨_, _, hrun, rfl, rfl, rfl⟩
  | cop c =>
    have hrun := cop_attachPlan_spec h t a c _ ht hnode
    have hdisp : taskProfile.attachPlan h t (some a) = copTaskProfile.attachPlan h t (some a) := by
      simp only [taskProfile.attachPlan, ht]
    rw [← hdisp] at hrun
    refine ⟨_, _, hrun, rfl, ?_, ?_⟩
    · cases c.addPlan2Index <;> simp [profileCount]
    · cases c.addPlan2Index <;> simp [profileCost]

/-- The three attaching calls, on operands of the right type, return a new profile cell
appended to the heap. -/
theorem attach_appends (k : CostFactors) (h : Heap) (t : Addr) (op : Op) (prof : taskProfile)
    (ht : h.profiles[t]? = some prof) (hop : op.isAttach = true)
    (hok : op.operandsOK h = true) (hsp : op.receiverOK h t = true) :
    ∃ h' v, op.apply k h t = some (h', h.profiles.length) ∧ h'.profiles = h.profiles ++ [v] ∧
      (op.isAttach2TaskProfile = true → isFloat64 (profileCost prof) → 0 ≤ k.cpuFactor →
        profileCost prof ≤ profileCost v) := by
  cases op with
  | attachPlan p =>
    cases p with
    | none => simp [Op.operandsOK] at hok
    | some a =>
      have ha : a < h.plans.length := by simpa [Op.operandsOK] using hok
      obtain ⟨h', v, hrun, hprof, _, _⟩ := attachPlan_summary h t a prof ht ha
      exact ⟨h', v, hrun, hprof, fun hno => by simp [Op.isAttach2TaskProfile] at hno⟩
  | limitAttach limit =>
    cases ho : h.operators[limit]? with
    | none => simp [Op.operandsOK, ho] at hok
    | some o =>
      cases o with
      | Limit L =>
        obtain ⟨ch, sch, hl⟩ := node_of_operator h limit _ ho
        obtain ⟨h', v, hrun, hprof, _, hcost⟩ := limit_attach_summary h limit t [] prof L ch sch ht hl
        exact ⟨h', v, hrun, hprof, fun _ _ _ => le_of_eq hcost.symm⟩
      | Selection P => simp [Op.operandsOK, ho] at hok
      | Scan => simp [Op.operandsOK, ho] at hok
  | selectionAttach sel =>
    cases ho : h.operators[sel]? with
    | none => simp [Op.operandsOK, ho] at hok
    | some o =>
      cases o with
      | Limit L => simp [Op.operandsOK, ho] at hok
      | Selection P =>
        obtain ⟨ch, sch, hsel⟩ := node_of_operator h sel _ ho
        obtain ⟨h', v, hrun, hprof, _, j, _, hcost⟩ :=
          selection_attach_summary k h sel t [] prof P ch sch ht hsel hsp
        refine ⟨h', v, hrun, hprof, fun _ hrep hcpu => ?_⟩
        rw [hcost]
        exact addTimes_ge hrep (mul_ofUint64_nonneg _ hcpu) j
      | Scan => simp [Op.operandsOK, ho] at hok
  | copy => simp [Op.isAttach] at hop
  | setCount n => simp [Op.isAttach] at hop
  | setCost c => simp [Op.isAttach] at hop
  | finishTask => simp [Op.isAttach] at hop

theorem operators_set_children (l : List PlanNode) (a : Addr) (n : PlanNode)
    (children : List PhysicalPlan) (ha : l[a]? = some n) :
    (l.set a { n with children := children }).map (fun m => m.op) = l.map (fun m => m.op) := by
  apply List.ext_getElem?
  intro i
  by_cases hia : a = i
  · subst hia
    have hlt := lt_of_getElem?_eq_some l a n ha
    rw [List.getElem?_map, List.getElem?_map, List.getElem?_set_self hlt, ha]
    rfl
  · simp [List.getElem?_map, List.getElem?_set_ne hia]

theorem operandsOK_congr (h h' : Heap) (op : Op) (hops : h'.operators = h.operators) :
    op.operandsOK h' = op.operandsOK h := by
  have hlen : h'.plans.length = h.plans.length := by
    have := congrArg List.length hops
    simpa [Heap.operators] using this
  cases op with
  | attachPlan p => cases p <;> simp [Op.operandsOK, hlen]
  | limitAttach limit => simp [Op.operandsOK, hops]
  | selectionAttach sel => simp [Op.operandsOK, hops]
  | copy => rfl
  | setCount n => rfl
  | setCost c => rfl
  | finishTask => rfl

/-- One call on a table-side cop task: it returns, the profile at hand after it is a table-side
cop task, and no plan node changes its operator. -/
theorem table_side_step (k : CostFactors) (h : Heap) (t : Addr) (c : copTaskProfile) (op : Op)
    (ht : h.profiles[t]? = some (.cop c)) (hflag : c.addPlan2Index = false)
    (hok : op.operandsOK h = true) :
    ∃ h' t' c', op.apply k h t = some (h', t') ∧ h'.profiles[t']? = some (.cop c') ∧
      c'.addPlan2Index = false ∧ h'.operators = h.operators := by
  have htlt := lt_of_getElem?_eq_some _ _ _ ht
  cases op with
  | attachPlan p =>
    cases p with
    | none => simp [Op.operandsOK] at hok
    | some a =>
      have ha : a < h.plans.length := by simpa [Op.operandsOK] using hok
      have hnode : h.plans[a]? = some h.plans[a] := List.getElem?_eq_getElem ha
      have hrun := cop_attachPlan_spec h t a c _ ht hnode
      have hdisp : Op.apply k h t (.attachPlan (some a))
          = copTaskProfile.attachPlan h t (some a) := by
        simp only [Op.apply, taskProfile.attachPlan, ht]
      rw [← hdisp] at hrun
      refine ⟨_, _, { c with tablePlan := some a }, hrun, ?_, hflag, ?_⟩
      · simp [hflag]
      · exact operators_set_children _ _ _ _ hnode
  | limitAttach limit =>
    cases ho : h.operators[limit]? with
    | none => simp [Op.operandsOK, ho] at hok
    | some o =>
      cases o with
      | Limit L =>
        obtain ⟨ch, sch, hl⟩ := node_of_operator h limit _ ho
        have hrun := limit_attach_cop_spec h limit t [] c L ch sch ht hl
        refine ⟨_, _, { c with tablePlan := some limit, cnt := L }, hrun, ?_, hflag, ?_⟩
        · simp [hflag]
        · exact operators_set_children _ _ ⟨.Limit L, ch, sch⟩ _ hl
      | Selection P => simp [Op.operandsOK, ho] at hok
      | Scan => simp [Op.operandsOK, ho] at hok
  | selectionAttach sel =>
    cases ho : h.operators[sel]? with
    | none => simp [Op.operandsOK, ho] at hok
    | some o =>
      obtain ⟨ch, sch, hsel⟩ := node_of_operator h sel _ ho
      have hrun := selection_attach_table_side_spec k h sel t [] c _ ht hflag hsel
      refine ⟨_, _, _, hrun, List.getElem?_concat_length _ _, hflag, ?_⟩
      exact operators_set_children _ _ _ _ hsel
  | copy =>
    have hrun := cop_copy_spec h t c ht
    have hdisp : Op.apply k h t .copy = copTaskProfile.copy h t := by
      simp only [Op.apply, taskProfile.copy, ht]
    rw [← hdisp] at hrun
    exact ⟨_, _, c, hrun, List.getElem?_concat_length _ _, hflag, rfl⟩
  | setCount n =>
    refine ⟨h.setProfile t (.cop { c with cnt := n }), t, { c with cnt := n }, ?_, ?_, hflag, rfl⟩
    · simp [Op.apply, taskProfile.setCount, copTaskProfile.setCount, ht]
    · exact List.getElem?_set_self htlt
  | setCost x =>
    refine ⟨h.setProfile t (.cop { c with cst := x }), t, { c with cst := x }, ?_, ?_, hflag, rfl⟩
    · simp [Op.apply, taskProfile.setCost, copTaskProfile.setCost, ht]
    · exact List.getElem?_set_self htlt
  | finishTask =>
    have hrun : Op.apply k h t .finishTask = some (h.setProfile t (.cop { c with
        cst := if c.tablePlan ≠ none ∧ c.indexPlan ≠ none
          then float64.add (float64.add c.cst (float64.mul (float64.ofUint64 c.cnt) k.netWorkFactor))
            (float64.mul (float64.ofUint64 c.cnt) k.netWorkFactor)
          else float64.add c.cst (float64.mul (float64.ofUint64 c.cnt) k.netWorkFactor) }), t) := by
      simp only [Op.apply, copTaskProfile.finishTask, ht]
    exact ⟨_, t, _, hrun, List.getElem?_set_self htlt, hflag, rfl⟩

/-- A run of calls from a table-side cop task: it returns and ends on a table-side cop task. -/
theorem table_side_run (k : CostFactors) (ops : List Op) :
    ∀ (h : Heap) (t : Addr) (c : copTaskProfile),
      h.profiles[t]? = some (.cop c) → c.addPlan2Index = false →
      (∀ op ∈ ops, op.operandsOK h = true) →
      ∃ h' t' c', runOps k h t ops = some (h', t') ∧ h'.profiles[t']? = some (.cop c') ∧
        c'.addPlan2Index = false := by
  induction ops with
  | nil =>
    intro h t c ht hflag _
    exact ⟨h, t, c, rfl, ht, hflag⟩
  | cons op ops ih =>
    intro h t c ht hflag hok
    obtain ⟨h1, t1, c1, hstep, ht1, hflag1, hops⟩ :=
      table_side_step k h t c op ht hflag (hok op (List.mem_cons_self _ _))
    have hok1 : ∀ o ∈ ops, o.operandsOK h1 = true := fun o ho => by
      rw [operandsOK_congr h h1 o hops]
      exact hok o (List.mem_cons_of_mem _ ho)
    obtain ⟨h', t', c', hrun, ht', hflag'⟩ := ih h1 t1 c1 ht1 hflag1 hok1
    exact ⟨h', t', c', by simp [runOps, hstep, hrun], ht', hflag'⟩

theorem set_same_cell {α : Type} (l : List α) (a : Nat) (v : α) (ha : l[a]? = some v) :
    l.set a v = l := by
  apply List.ext_getElem?
  intro i
  by_cases hia : a = i
  · subst hia
    rw [List.getElem?_set_self (lt_of_getElem?_eq_some l a v ha), ha]
  · rw [List.getElem?_set_ne hia]

theorem cell_of_append (l l' : List taskProfile) (v : taskProfile) (hl : l' = l ++ [v]) :
    l'[l.length]? = some v := by
  rw [hl]
  exact List.getElem?_concat_length _ _

theorem count_of_new_root (l : List taskProfile) (plans : List PlanNode) (pl : PhysicalPlan)
    (cst : ℚ) (cnt : Nat) :
    taskProfile.count ⟨plans, l ++ [.root ⟨pl, cst, cnt⟩]⟩ l.length = some cnt := by
  rw [count_of_cell _ _ (.root ⟨pl, cst, cnt⟩) (List.getElem?_concat_length _ _)]
  rfl

theorem cost_of_new_root (l : List taskProfile) (plans : List PlanNode) (pl : PhysicalPlan)
    (cst : ℚ) (cnt : Nat) :
    taskProfile.cost ⟨plans, l ++ [.root ⟨pl, cst, cnt⟩]⟩ l.length = some cst := by
  rw [cost_of_cell _ _ (.root ⟨pl, cst, cnt⟩) (List.getElem?_concat_length _ _)]
  rfl

theorem count_of_new_cop (l : List taskProfile) (plans : List PlanNode) (ip tp : PhysicalPlan)
    (cst : ℚ) (cnt : Nat) (flag : Bool) :
    taskProfile.count ⟨plans, l ++ [.cop ⟨ip, tp, cst, cnt, flag⟩]⟩ l.length = some cnt := by
  rw [count_of_cell _ _ (.cop ⟨ip, tp, cst, cnt, flag⟩) (List.getElem?_concat_length _ _)]
  rfl

theorem cost_of_new_cop (l : List taskProfile) (plans : List PlanNode) (ip tp : PhysicalPlan)
    (cst : ℚ) (cnt : Nat) (flag : Bool) :
    taskProfile.cost ⟨plans, l ++ [.cop ⟨ip, tp, cst, cnt, flag⟩]⟩ l.length = some cst := by
  rw [cost_of_cell _ _ (.cop ⟨ip, tp, cst, cnt, flag⟩) (List.getElem?_concat_length _ _)]
  rfl

theorem splitCharges_eq (schema : Schema) (P : List Expression) :
    splitCharges schema P
      = (if P.filter (fun e => coverable schema e) = [] then 0 else 1)
        + (if P.filter (fun e => !coverable schema e) = [] then 0 else 1) := by
  have hI : (P.any (fun e => coverable schema e) = true)
      ↔ ¬ P.filter (fun e => coverable schema e) = [] := by
    simp [List.filter_eq_nil_iff]
  have hT : (P.any (fun e => !coverable schema e) = true)
      ↔ ¬ P.filter (fun e => !coverable schema e) = [] := by
    simp [List.filter_eq_nil_iff]
  unfold splitCharges
  by_cases h1 : P.filter (fun e => coverable schema e) = [] <;>
    by_cases h2 : P.filter (fun e => !coverable schema e) = []
  · have a1 : ¬ P.any (fun e => coverable schema e) = true := fun hh => hI.mp hh h1
    have a2 : ¬ P.any (fun e => !coverable schema e) = true := fun hh => hT.mp hh h2
    simp [h1, h2, a1, a2]
  · have a1 : ¬ P.any (fun e => coverable schema e) = true := fun hh => hI.mp hh h1
    have a2 : P.any (fun e => !coverable schema e) = true := hT.mpr h2
    simp [h1, h2, a1, a2]
  · have a1 : P.any (fun e => coverable schema e) = true := hI.mpr h1
    have a2 : ¬ P.any (fun e => !coverable schema e) = true := fun hh => hT.mp hh h2
    simp [h1, h2, a1, a2]
  · have a1 : P.any (fun e => coverable schema e) = true := hI.mpr h1
    have a2 : P.any (fun e => !coverable schema e) = true := hT.mpr h2
    simp [h1, h2, a1, a2]

/-- When neither the conversion nor the product rounds, the float64 product
`float64(n) * f` is the exact product. -/
theorem mul_ofUint64_exact (n : Nat) (f : ℚ) (hn : isFloat64 (n : ℚ))
    (hprod : isFloat64 ((n : ℚ) * f)) :
    float64.mul (float64.ofUint64 n) f = (n : ℚ) * f := by
  unfold float64.mul float64.ofUint64
  rw [hn, hprod]

/-- When nothing rounds and the product is in the range of `uint64`, the conversion
`uint64(float64(n) * f)` is the floor of the exact product. -/
theorem toUint64_mul_exact (n : Nat) (f : ℚ) (hn : isFloat64 (n : ℚ))
    (hprod : isFloat64 ((n : ℚ) * f)) (hlt : (n : ℚ) * f < 2 ^ 64) :
    float64.toUint64 (float64.mul (float64.ofUint64 n) f) = ⌊(n : ℚ) * f⌋₊ := by
  rw [mul_ofUint64_exact n f hn hprod]
  unfold float64.toUint64
  apply Nat.mod_eq_of_lt
  rcases le_or_lt 0 ((n : ℚ) * f) with h0 | h0
  · rw [Nat.floor_lt h0]
    exact_mod_cast hlt
  · rw [Nat.floor_of_nonpos h0.le]
    exact Nat.pos_pow_of_pos 64 (by norm_num)

theorem profileCost_cop_mk (ip tp : PhysicalPlan) (cst : ℚ) (cnt : Nat) (flag : Bool) :
    profileCost (.cop ⟨ip, tp, cst, cnt, flag⟩) = cst := rfl

theorem profileCount_cop_mk (ip tp : PhysicalPlan) (cst : ℚ) (cnt : Nat) (flag : Bool) :
    profileCount (.cop ⟨ip, tp, cst, cnt, flag⟩) = cnt := rfl

theorem filterCharges_le_two (h : Heap) (prof : taskProfile) (P : List Expression) :
    filterCharges h prof P ≤ 2 := by
  unfold filterCharges
  cases prof with
  | root r => simp
  | cop c =>
    simp only
    split_ifs
    · cases c.tablePlan with
      | none => simp
      | some tp =>
        simp only [splitCharges]
        split_ifs <;> omega
    · omega

/-- The cost part of every case of `Selection.attach2TaskProfile`: the returned cost is the
incoming cost after as many float64 additions of `float64(cnt) * cpuFactor` as `filterCharges`
counts. -/
theorem selection_attach_cost_formula (k : CostFactors) (h : Heap) (sel p : Addr)
    (ps : List Addr) (prof : taskProfile) (P : List Expression) (ch : List PhysicalPlan)
    (sch : Schema) (hp : h.profiles[p]? = some prof)
    (hsel : h.plans[sel]? = some ⟨.Selection P, ch, sch⟩)
    (hsp : splittable h p = true) :
    ∃ h' r, Selection.attach2TaskProfile k h sel (p :: ps) = some (h', r) ∧
      taskProfile.cost h' r
        = some (float64.addTimes (filterCharges h prof P) (profileCost prof)
            (float64.mul (float64.ofUint64 (profileCount prof)) k.cpuFactor)) := by
  cases prof with
  | root r =>
    refine ⟨_, _, selection_attach_root_spec k h sel p ps r hp, ?_⟩
    rw [cost_of_cell _ _ _ (List.getElem?_concat_length _ _)]
    rfl
  | cop c =>
    cases hflag : c.addPlan2Index with
    | false =>
      refine ⟨_, _, selection_attach_table_side_spec k h sel p ps c _ hp hflag hsel, ?_⟩
      rw [cost_of_cell _ _ _ (List.getElem?_concat_length _ _)]
      simp [profileCost, profileCount, filterCharges, hflag, float64.addTimes]
    | true =>
      cases htab : c.tablePlan with
      | none =>
        refine ⟨_, _, selection_attach_index_only_spec k h sel p ps c _ hp hflag htab hsel, ?_⟩
        rw [cost_of_cell _ _ _ (List.getElem?_concat_length _ _)]
        simp [profileCost, profileCount, filterCharges, hflag, htab, float64.addTimes]
      | some tp =>
        obtain ⟨ip, nip, hidx, hnip⟩ := splittable_cop h p tp c hp hflag htab hsp
        obtain ⟨h', C', hrun, _, hprof, _⟩ :=
          selection_attach_split_spec k h sel p ip tp ps c nip P ch sch hp hflag htab hidx
            hnip hsel
        have hcell := cell_of_append _ _ _ hprof
        refine ⟨h', _, hrun, ?_⟩
        rw [cost_of_cell _ _ _ hcell]
        simp only [profileCost, profileCount, filterCharges, hflag, htab, hidx, PlanSchema,
          hnip, Option.getD_some, if_true, splitCharges_eq]

theorem filter_uncoverable_ne_nil_iff (schema : Schema) (P : List Expression) :
    ¬ P.filter (fun e => !coverable schema e) = []
      ↔ ∃ e ∈ P, ∃ c ∈ ExtractColumns e, c ∉ schema := by
  rw [List.filter_eq_nil_iff]
  constructor
  · intro hne
    by_contra hall
    apply hne
    intro e he hcov
    apply hall
    refine ⟨e, he, (coverable_eq_false_iff schema e).mp ?_⟩
    simpa using hcov
  · rintro ⟨e, he, hex⟩ hall
    exact hall e he (by simp [(coverable_eq_false_iff schema e).mpr hex])

theorem filter_coverable_ne_nil_iff (schema : Schema) (P : List Expression) :
    ¬ P.filter (fun e => coverable schema e) = []
      ↔ ∃ e ∈ P, ∀ c ∈ ExtractColumns e, c ∈ schema := by
  rw [List.filter_eq_nil_iff]
  constructor
  · intro hne
    by_contra hall
    apply hne
    intro e he hcov
    exact hall ⟨e, he, (coverable_eq_true_iff schema e).mp hcov⟩
  · rintro ⟨e, he, hex⟩ hall
    exact hall e he ((coverable_eq_true_iff schema e).mpr hex)

theorem filter_coverable_eq (schema : Schema) (P : List Expression) :
    P.filter (fun e => coverable schema e)
      = P.filter (fun e => decide (∀ c ∈ ExtractColumns e, c ∈ schema)) := by
  apply List.filter_congr
  intro e _
  cases hcov : coverable schema e with
  | true => exact (decide_eq_true ((coverable_eq_true_iff schema e).mp hcov)).symm
  | false =>
    obtain ⟨c, hc, habs⟩ := (coverable_eq_false_iff schema e).mp hcov
    exact (decide_eq_false (fun hall => habs (hall c hc))).symm

theorem filter_uncoverable_eq (schema : Schema) (P : List Expression) :
    P.filter (fun e => !coverable schema e)
      = P.filter (fun e => decide (∃ c ∈ ExtractColumns e, c ∉ schema)) := by
  apply List.filter_congr
  intro e _
  cases hcov : coverable schema e with
  | true =>
    have hall := (coverable_eq_true_iff schema e).mp hcov
    exact (decide_eq_false (fun ⟨c, hc, habs⟩ => habs (hall c hc))).symm
  | false => exact (decide_eq_true ((coverable_eq_false_iff schema e).mp hcov)).symm

/-- On a cop task where no split occurs (table side, or index side without table subtree),
`Selection.attach2TaskProfile` is `attachPlan` of the filter node followed by the cost and the
count updates. -/
theorem selection_attach_cop_refines (k : CostFactors) (h : Heap) (sel p : Addr)
    (ps : List Addr) (c : copTaskProfile) (n : PlanNode)
    (hp : h.profiles[p]? = some (.cop c))
    (hnosplit : c.addPlan2Index = false ∨ c.tablePlan = none)
    (hsel : h.plans[sel]? = some n) :
    Selection.attach2TaskProfile k h sel (p :: ps) = specSelectionAttach k h sel p
      ∧ ∃ res, Selection.attach2TaskProfile k h sel (p :: ps) = some res := by
  have hcost := cost_of_cell h p _ hp
  have hcount := count_of_cell h p _ hp
  have hatt : taskProfile.attachPlan h p (some sel) = copTaskProfile.attachPlan h p (some sel) := by
    simp only [taskProfile.attachPlan, hp]
  have hlen : h.profiles.length < (h.profiles ++ [taskProfile.cop c]).length := by simp
  cases hflag : c.addPlan2Index with
  | false =>
    have hrun := selection_attach_table_side_spec k h sel p ps c n hp hflag hsel
    refine ⟨?_, _, hrun⟩
    rw [hrun]
    simp [specSelectionAttach, hatt, cop_attachPlan_spec h p sel c n hp hsel, hcost, hcount,
      hflag, profileCost, profileCount, taskProfile.setCost, copTaskProfile.setCost,
      taskProfile.setCount, copTaskProfile.setCount, Heap.setProfile, set_concat_length]
  | true =>
    have htab : c.tablePlan = none := by
      rcases hnosplit with hno | htab
      · rw [hflag] at hno
        cases hno
      · exact htab
    have hrun := selection_attach_index_only_spec k h sel p ps c n hp hflag htab hsel
    refine ⟨?_, _, hrun⟩
    rw [hrun]
    simp [specSelectionAttach, hatt, cop_attachPlan_spec h p sel c n hp hsel, hcost, hcount,
      hflag, profileCost, profileCount, taskProfile.setCost, copTaskProfile.setCost,
      taskProfile.setCount, copTaskProfile.setCount, Heap.setProfile, set_concat_length]

/-! ## The predicate splitter: claims -/

/-- C1, evaluated on the filter `[b, a]` with `b` over the indexed column 1 and `a` over the
column 2, which the index schema `[1]` lacks: the node returned as `indexSel` still lists `a`,
which is also the one predicate of `tableSel`, so the two predicate lists are not disjoint. -/
theorem split_lists_overlap :
    Selection.splitSelectionByIndexColumns
        ⟨[⟨.Selection [⟨1, [⟨1⟩]⟩, ⟨2, [⟨2⟩]⟩], [], []⟩], []⟩ 0 [⟨1⟩]
      = some (⟨[⟨.Selection [⟨1, [⟨1⟩]⟩, ⟨2, [⟨2⟩]⟩], [], []⟩,
                ⟨.Selection [⟨2, [⟨2⟩]⟩], [], []⟩], []⟩, some 0, some 1)
    ∧ ¬ List.Disjoint
        (conditionsOf ⟨[⟨.Selection [⟨1, [⟨1⟩]⟩, ⟨2, [⟨2⟩]⟩], [], []⟩,
                ⟨.Selection [⟨2, [⟨2⟩]⟩], [], []⟩], []⟩ (some 0))
        (conditionsOf ⟨[⟨.Selection [⟨1, [⟨1⟩]⟩, ⟨2, [⟨2⟩]⟩], [], []⟩,
                ⟨.Selection [⟨2, [⟨2⟩]⟩], [], []⟩], []⟩ (some 1)) := by
  refine ⟨by decide, ?_⟩
  intro hdis
  exact hdis (a := ⟨2, [⟨2⟩]⟩) (by decide) (by decide)

/-- C2, evaluated on the same filter `[b, a]` and index schema `[1]`: the node returned as
`indexSel` lists `a`, which references the column 2 absent from the schema; and when the filter
is attached to a double-read cop task whose index scan outputs `[1]`, the filter node installed
on the index subtree carries both `b` and `a`. -/
theorem indexSel_keeps_uncoverable_predicate :
    ((Selection.splitSelectionByIndexColumns
        ⟨[⟨.Selection [⟨1, [⟨1⟩]⟩, ⟨2, [⟨2⟩]⟩], [], []⟩], []⟩ 0 [⟨1⟩]).map
      (fun r => conditionsOf r.1 r.2.1) = some [⟨1, [⟨1⟩]⟩, ⟨2, [⟨2⟩]⟩])
    ∧ coverable [⟨1⟩] ⟨2, [⟨2⟩]⟩ = false
    ∧ (∃ c ∈ ExtractColumns ⟨2, [⟨2⟩]⟩, c ∉ ([⟨1⟩] : Schema))
    ∧ ((Selection.attach2TaskProfile exampleFactors
          ⟨[⟨.Scan, [], [⟨1⟩]⟩, ⟨.Scan, [], [⟨1⟩, ⟨2⟩]⟩,
            ⟨.Selection [⟨1, [⟨1⟩]⟩, ⟨2, [⟨2⟩]⟩], [], []⟩],
           [.cop ⟨some 0, some 1, 0, 500, true⟩]⟩ 2 [0]).map
        (fun r => indexSidePredicates r.1 r.2) = some [⟨1, [⟨1⟩]⟩, ⟨2, [⟨2⟩]⟩]) := by
  refine ⟨by decide, by decide, ⟨⟨2⟩, by decide, by decide⟩, by decide⟩

/-- C3: on a filter node with predicate list `P`, `splitSelectionByIndexColumns` returns, and
when it returns a table-side node, that node is a filter whose every predicate has
`ColumnsIndices` nil on its columns, that is, references a column absent from the schema. -/
theorem tableSel_predicates_need_absent_column (h : Heap) (sel : Addr) (schema : Schema)
    (P : List Expression) (ch : List PhysicalPlan) (sch : Schema)
    (hsel : h.plans[sel]? = some ⟨.Selection P, ch, sch⟩) :
    ∃ h' indexSel tableSel,
      Selection.splitSelectionByIndexColumns h sel schema = some (h', indexSel, tableSel) ∧
      ∀ a, tableSel = some a →
        ∃ tc, h'.plans[a]? = some ⟨.Selection tc, [], []⟩ ∧ conditionsOf h' tableSel = tc ∧
          ∀ e ∈ tc, ColumnsIndices schema (ExtractColumns e) = none ∧
            ∃ c ∈ ExtractColumns e, c ∉ schema := by
  obtain ⟨C', h', _, hres, _, hplans⟩ := split_spec h sel schema P ch sch hsel
  refine ⟨h', _, _, hres, ?_⟩
  intro a ha
  by_cases ht : P.filter (fun e => !coverable schema e) = []
  · simp [ht] at ha
  · simp only [ht, if_false, Option.some.injEq] at ha
    subst ha
    have hcell : h'.plans[h.plans.length]?
        = some ⟨.Selection (P.filter (fun e => !coverable schema e)).reverse, [], []⟩ := by
      rw [hplans]
      simp only [ht, if_false]
      rw [List.getElem?_append_right (by simp)]
      simp
    refine ⟨_, hcell, ?_, ?_⟩
    · simp [ht, conditionsOf, hcell]
    · intro e he
      have he' : e ∈ P.filter (fun e => !coverable schema e) := List.mem_reverse.mp he
      have hcov : coverable schema e = false := by
        simpa using (List.mem_filter.mp he').2
      have hex := (coverable_eq_false_iff schema e).mp hcov
      exact ⟨(ColumnsIndices_eq_none_iff schema _).mpr hex, hex⟩

/-- The witness of C3: the filter `[b, a]` split against the schema `[1]`. -/
theorem tableSel_predicates_need_absent_column_witness :
    ∃ h' indexSel tableSel,
      Selection.splitSelectionByIndexColumns
        ⟨[⟨.Selection [⟨1, [⟨1⟩]⟩, ⟨2, [⟨2⟩]⟩], [], []⟩], []⟩ 0 [⟨1⟩]
          = some (h', indexSel, tableSel) ∧
      ∀ a, tableSel = some a →
        ∃ tc, h'.plans[a]? = some ⟨.Selection tc, [], []⟩ ∧ conditionsOf h' tableSel = tc ∧
          ∀ e ∈ tc, ColumnsIndices [⟨1⟩] (ExtractColumns e) = none ∧
            ∃ c ∈ ExtractColumns e, c ∉ ([⟨1⟩] : Schema) :=
  tableSel_predicates_need_absent_column
    ⟨[⟨.Selection [⟨1, [⟨1⟩]⟩, ⟨2, [⟨2⟩]⟩], [], []⟩], []⟩ 0 [⟨1⟩]
    [⟨1, [⟨1⟩]⟩, ⟨2, [⟨2⟩]⟩] [] [] (by decide)

/-! ## The attachment rules: claims -/

/-- C4, evaluated on the root task with plan subtree node 1 and 200 rows and the filter node 2
of the worked example: the returned root task still has node 1 as its plan, not the filter
node, and the filter node still has no child. -/
theorem selection_on_root_is_not_attached :
    (Selection.attach2TaskProfile exampleFactors exampleHeap 2 [1]).map
      (fun r => (rootPlanOf r.1 r.2, childrenOf r.1 2)) = some (some (some 1), some []) := by
  decide

/-- C5 as stated fails: on the root task with `3 * 2 ^ 49` rows, with the float64 value of
`0.8` as selection factor, `Selection.attach2TaskProfile` returns the count 1351079888211149:
the float64 product falls half-way between two float64 values and is rounded up, while
`floor (C * selectionFactor)` is 1351079888211148. -/
theorem selection_count_is_not_floor :
    ∃ h' r, Selection.attach2TaskProfile exampleFactors floatHeap 2 [0] = some (h', r) ∧
      taskProfile.count floatHeap 0 = some 1688849860263936 ∧
      taskProfile.count h' r = some 1351079888211149 ∧
      ⌊((1688849860263936 : ℕ) : ℚ) * exampleFactors.selectionFactor⌋₊ = 1351079888211148 := by
  refine ⟨_, _,
    selection_attach_root_spec exampleFactors floatHeap 2 0 [] ⟨some 1, 0, 1688849860263936⟩ rfl,
    count_of_cell floatHeap 0 _ rfl, ?_, ?_⟩
  · exact (count_of_new_root _ _ _ _ _).trans (congrArg some eval_scaled_count)
  · rw [Nat.floor_eq_iff (by norm_num [exampleFactors])]
    constructor <;> norm_num [exampleFactors]

/-- C5, amended: for a profile of either variant with incoming count `C` and a filter node,
`Selection.attach2TaskProfile` returns a profile whose count is
`uint64(float64(C) * selectionFactor)`, the float64 product with its fraction discarded, in the
split case like in the others; that is `floor (C * selectionFactor)` whenever `C` and
`C * selectionFactor` are float64 values, so that nothing is rounded, and the product is below
`2 ^ 64`. -/
theorem selection_attach_count (k : CostFactors) (h : Heap) (sel p : Addr) (ps : List Addr)
    (prof : taskProfile) (P : List Expression) (ch : List PhysicalPlan) (sch : Schema)
    (hp : h.profiles[p]? = some prof)
    (hsel : h.plans[sel]? = some ⟨.Selection P, ch, sch⟩)
    (hsp : splittable h p = true) :
    ∃ h' r, Selection.attach2TaskProfile k h sel (p :: ps) = some (h', r) ∧
      taskProfile.count h p = some (profileCount prof) ∧
      taskProfile.count h' r
        = some (float64.toUint64
            (float64.mul (float64.ofUint64 (profileCount prof)) k.selectionFactor)) ∧
      (isFloat64 (profileCount prof : ℚ) →
        isFloat64 ((profileCount prof : ℚ) * k.selectionFactor) →
        (profileCount prof : ℚ) * k.selectionFactor < 2 ^ 64 →
        taskProfile.count h' r = some ⌊(profileCount prof : ℚ) * k.selectionFactor⌋₊) := by
  obtain ⟨h', v, hrun, hprof, hcnt, _⟩ :=
    selection_attach_summary k h sel p ps prof P ch sch hp hsel hsp
  have hcell := cell_of_append _ _ _ hprof
  have hcount : taskProfile.count h' h.profiles.length
      = some (float64.toUint64
          (float64.mul (float64.ofUint64 (profileCount prof)) k.selectionFactor)) := by
    rw [count_of_cell h' _ v hcell, hcnt]
  refine ⟨h', _, hrun, count_of_cell h p prof hp, hcount, ?_⟩
  intro hn hprod hlt
  rw [hcount, toUint64_mul_exact _ _ hn hprod hlt]

/-- The witness of C5: the filter of the worked example attached to the index-side cop task
with a table subtree, where it is split; and, with the selection factor `0.25`, attached to the
root task of 200 rows, where nothing is rounded and the count is `floor (200 * 0.25) = 50`. -/
theorem selection_attach_count_witness :
    (∃ h' r, Selection.attach2TaskProfile exampleFactors exampleHeap 2 (0 :: []) = some (h', r) ∧
      taskProfile.count exampleHeap 0 = some 500 ∧
      taskProfile.count h' r
        = some (float64.toUint64
            (float64.mul (float64.ofUint64 500) exampleFactors.selectionFactor)))
    ∧ (∃ h' r, Selection.attach2TaskProfile dyadicFactors exampleHeap 2 (1 :: []) = some (h', r) ∧
      taskProfile.count exampleHeap 1 = some 200 ∧
      taskProfile.count h' r = some 50) := by
  constructor
  · obtain ⟨h', r, hrun, hin, hout, _⟩ :=
      selection_attach_count exampleFactors exampleHeap 2 0 []
        (.cop ⟨some 0, some 1, 0, 500, true⟩) [⟨1, [⟨1⟩]⟩, ⟨2, [⟨2⟩]⟩] [] [] rfl rfl (by decide)
    exact ⟨h', r, hrun, hin, hout⟩
  · obtain ⟨h', r, hrun, hin, _, hexact⟩ :=
      selection_attach_count dyadicFactors exampleHeap 2 1 []
        (.root ⟨some 1, 7, 200⟩) [⟨1, [⟨1⟩]⟩, ⟨2, [⟨2⟩]⟩] [] [] rfl rfl (by decide)
    have e : ((200 : ℕ) : ℚ) * dyadicFactors.selectionFactor = ((50 : ℕ) : ℚ) := by
      norm_num [dyadicFactors]
    have h1 : isFloat64 ((200 : ℕ) : ℚ) := isFloat64_natCast 200 (by norm_num)
    have h2 : isFloat64 (((200 : ℕ) : ℚ) * dyadicFactors.selectionFactor) := by
      rw [e]
      exact isFloat64_natCast 50 (by norm_num)
    have h3 : ((200 : ℕ) : ℚ) * dyadicFactors.selectionFactor < 2 ^ 64 := by
      rw [e]
      norm_num
    have hcount := hexact h1 h2 h3
    have hfloor : ⌊((200 : ℕ) : ℚ) * dyadicFactors.selectionFactor⌋₊ = 50 := by
      rw [e]
      exact Nat.floor_natCast 50
    exact ⟨h', r, hrun, hin, hcount.trans (congrArg some hfloor)⟩

/-- C6: for a profile `p` of either variant and the attachment rule of a filter node or of a
limit node, with `cpuFactor ≥ 0` and the cost of `p` a float64 value, the returned profile has
a cost at least the cost of `p`. -/
theorem attach2TaskProfile_cost_monotone (k : CostFactors) (h : Heap) (t : Addr) (op : Op)
    (prof : taskProfile) (ht : h.profiles[t]? = some prof)
    (hop : op.isAttach2TaskProfile = true) (hok : op.operandsOK h = true)
    (hsp : op.receiverOK h t = true) (hcpu : 0 ≤ k.cpuFactor)
    (hrep : isFloat64 (profileCost prof)) :
    ∃ h' r c0 c1, op.apply k h t = some (h', r) ∧ taskProfile.cost h t = some c0 ∧
      taskProfile.cost h' r = some c1 ∧ c0 ≤ c1 := by
  have hatt : op.isAttach = true := by
    cases op <;> simp_all [Op.isAttach, Op.isAttach2TaskProfile]
  obtain ⟨h', v, hrun, hprof, hcost⟩ := attach_appends k h t op prof ht hatt hok hsp
  have hcell : h'.profiles[h.profiles.length]? = some v := by
    rw [hprof]
    exact List.getElem?_concat_length _ _
  exact ⟨h', _, profileCost prof, profileCost v, hrun, cost_of_cell h t prof ht,
    cost_of_cell h' _ v hcell, hcost hop hrep hcpu⟩

/-- The witness of C6: the filter of the worked example attached to the index-side cop task
with a table subtree. -/
theorem attach2TaskProfile_cost_monotone_witness :
    ∃ h' r c0 c1, (Op.selectionAttach 2).apply exampleFactors exampleHeap 0 = some (h', r) ∧
      taskProfile.cost exampleHeap 0 = some c0 ∧ taskProfile.cost h' r = some c1 ∧ c0 ≤ c1 :=
  attach2TaskProfile_cost_monotone exampleFactors exampleHeap 0 (.selectionAttach 2)
    (.cop ⟨some 0, some 1, 0, 500, true⟩) rfl rfl (by decide) (by decide)
    (by norm_num [exampleFactors]) round_zero

/-- C7: for a profile of either variant, whatever its count, and a limit node of value `L`,
`Limit.attach2TaskProfile` returns a profile whose count is `L`. -/
theorem limit_attach_count (h : Heap) (limit p : Addr) (ps : List Addr) (prof : taskProfile)
    (L : Nat) (ch : List PhysicalPlan) (sch : Schema)
    (hp : h.profiles[p]? = some prof) (hl : h.plans[limit]? = some ⟨.Limit L, ch, sch⟩) :
    ∃ h' r, Limit.attach2TaskProfile h limit (p :: ps) = some (h', r) ∧
      taskProfile.count h' r = some L := by
  obtain ⟨h', v, hrun, hprof, hcnt, _⟩ := limit_attach_summary h limit p ps prof L ch sch hp hl
  have hcell : h'.profiles[h.profiles.length]? = some v := by
    rw [hprof]
    exact List.getElem?_concat_length _ _
  exact ⟨h', _, hrun, by rw [count_of_cell h' _ v hcell, hcnt]⟩

/-- The witness of C7: the limit of 10 rows attached to the cop task of 3 rows. -/
theorem limit_attach_count_witness :
    taskProfile.count exampleHeap 2 = some 3 ∧
    ∃ h' r, Limit.attach2TaskProfile exampleHeap 3 (2 :: []) = some (h', r) ∧
      taskProfile.count h' r = some 10 :=
  ⟨by decide,
   limit_attach_count exampleHeap 3 2 [] (.cop ⟨some 0, some 1, 5, 3, false⟩) 10 [] [] rfl rfl⟩

/-- C8: `attachPlan`, `Limit.attach2TaskProfile` and `Selection.attach2TaskProfile` return a
profile in a new cell and leave the receiver as it was: its count, its cost, its plan subtrees
and its side flag; so is every other profile of the heap. -/
theorem attach_keeps_receiver (k : CostFactors) (h : Heap) (t : Addr) (op : Op)
    (prof : taskProfile) (ht : h.profiles[t]? = some prof)
    (hop : op.isAttach = true) (hok : op.operandsOK h = true)
    (hsp : op.receiverOK h t = true) :
    ∃ h' r, op.apply k h t = some (h', r) ∧ r ≠ t ∧
      h'.profiles[t]? = some prof ∧
      taskProfile.count h' t = taskProfile.count h t ∧
      taskProfile.cost h' t = taskProfile.cost h t ∧
      ∀ (a : Addr) (w : taskProfile), h.profiles[a]? = some w → h'.profiles[a]? = some w := by
  obtain ⟨h', v, hrun, hprof, _⟩ := attach_appends k h t op prof ht hop hok hsp
  have hkeep : ∀ a w, h.profiles[a]? = some w → h'.profiles[a]? = some w := fun a w ha => by
    rw [hprof]
    exact getElem?_concat_of_some _ _ _ _ ha
  have htlt := lt_of_getElem?_eq_some _ _ _ ht
  refine ⟨h', _, hrun, Nat.ne_of_gt htlt, hkeep t prof ht, ?_, ?_, hkeep⟩
  · rw [count_of_cell h' t prof (hkeep t prof ht), count_of_cell h t prof ht]
  · rw [cost_of_cell h' t prof (hkeep t prof ht), cost_of_cell h t prof ht]

/-- The witness of C8: the filter of the worked example attached to the index-side cop task
with a table subtree. -/
theorem attach_keeps_receiver_witness :
    ∃ h' r, (Op.selectionAttach 2).apply exampleFactors exampleHeap 0 = some (h', r) ∧ r ≠ 0 ∧
      h'.profiles[0]? = some (.cop ⟨some 0, some 1, 0, 500, true⟩) ∧
      taskProfile.count h' 0 = taskProfile.count exampleHeap 0 ∧
      taskProfile.cost h' 0 = taskProfile.cost exampleHeap 0 ∧
      ∀ (a : Addr) (w : taskProfile),
        exampleHeap.profiles[a]? = some w → h'.profiles[a]? = some w :=
  attach_keeps_receiver exampleFactors exampleHeap 0 (.selectionAttach 2)
    (.cop ⟨some 0, some 1, 0, 500, true⟩) rfl rfl (by decide) (by decide)

/-- C9: from a cop task on the table side, every finite sequence of `attachPlan`,
`Limit.attach2TaskProfile`, `Selection.attach2TaskProfile`, `copy`, `setCount`, `setCost` and
`finishTask` returns and ends on a cop task that is on the table side. -/
theorem table_side_is_kept (k : CostFactors) (h : Heap) (t : Addr) (c : copTaskProfile)
    (ops : List Op) (ht : h.profiles[t]? = some (.cop c)) (hflag : c.addPlan2Index = false)
    (hok : ∀ op ∈ ops, op.operandsOK h = true) :
    ∃ h' t', runOps k h t ops = some (h', t') ∧ sideFlag h' t' = some false := by
  obtain ⟨h', t', c', hrun, ht', hflag'⟩ := table_side_run k ops h t c ht hflag hok
  exact ⟨h', t', hrun, by simp [sideFlag, ht', hflag']⟩

/-- The witness of C9: seven calls, one of each kind, from the table-side cop task of the
worked example. -/
theorem table_side_is_kept_witness :
    ∃ h' t', runOps exampleFactors exampleHeap 2
        [.selectionAttach 2, .limitAttach 3, .copy, .setCount 9, .setCost 1,
          .attachPlan (some 0), .finishTask] = some (h', t') ∧
      sideFlag h' t' = some false :=
  table_side_is_kept exampleFactors exampleHeap 2 ⟨some 0, some 1, 5, 3, false⟩ _ rfl rfl
    (by decide)

/-- C10 as stated fails: on the index-only cop task with cost `2 ^ 53` and 1 row, with
`netWorkFactor = 1.5`, `finishTask` sets the cost to `2 ^ 53 + 2`, the float64 sum being rounded,
while `c + n * netWorkFactor` is `2 ^ 53 + 3 / 2`. -/
theorem finishTask_cost_is_rounded :
    ∃ h', copTaskProfile.finishTask exampleFactors floatHeap 2 = some h' ∧
      taskProfile.cost floatHeap 2 = some 9007199254740992 ∧
      taskProfile.cost h' 2 = some 9007199254740994 ∧
      (9007199254740992 : ℚ) + ((1 : ℕ) : ℚ) * exampleFactors.netWorkFactor
        = 18014398509481987 / 2 ∧
      (9007199254740994 : ℚ) ≠ 18014398509481987 / 2 := by
  have hrun : copTaskProfile.finishTask exampleFactors floatHeap 2
      = some (floatHeap.setProfile 2 (.cop ⟨some 0, none,
          float64.add 9007199254740992
            (float64.mul (float64.ofUint64 1) exampleFactors.netWorkFactor), 1, true⟩)) := by
    simp [copTaskProfile.finishTask, floatHeap]
  refine ⟨_, hrun, cost_of_cell floatHeap 2 _ rfl, ?_, by norm_num [exampleFactors],
    by norm_num⟩
  have hcell : (floatHeap.setProfile 2 (.cop ⟨some 0, none,
      float64.add 9007199254740992
        (float64.mul (float64.ofUint64 1) exampleFactors.netWorkFactor), 1, true⟩)).profiles[2]?
      = some (.cop ⟨some 0, none, 9007199254740994, 1, true⟩) := by
    rw [eval_finish_cost]
    rfl
  exact cost_of_cell _ 2 _ hcell

/-- C10, amended: on a cop task with count `n` and cost `c`, `finishTask` keeps the count and
sets the cost to the float64 sum of `c` and the float64 product `float64(n) * netWorkFactor`
when `tablePlan` is nil, and adds that product a second time, in float64, when `indexPlan` and
`tablePlan` are both non-nil; these are `c + n * netWorkFactor` and `c + 2 * n * netWorkFactor`
whenever the product and the sums are float64 values, so that nothing is rounded. -/
theorem finishTask_cost (k : CostFactors) (h : Heap) (t : Addr) (c : copTaskProfile)
    (ht : h.profiles[t]? = some (.cop c)) :
    ∃ h', copTaskProfile.finishTask k h t = some h' ∧
      taskProfile.count h' t = some c.cnt ∧
      (c.tablePlan = none →
        taskProfile.cost h' t
          = some (float64.add c.cst (float64.mul (float64.ofUint64 c.cnt) k.netWorkFactor))) ∧
      (c.indexPlan ≠ none → c.tablePlan ≠ none →
        taskProfile.cost h' t
          = some (float64.add
              (float64.add c.cst (float64.mul (float64.ofUint64 c.cnt) k.netWorkFactor))
              (float64.mul (float64.ofUint64 c.cnt) k.netWorkFactor))) ∧
      (isFloat64 (c.cnt : ℚ) → isFloat64 ((c.cnt : ℚ) * k.netWorkFactor) →
        isFloat64 (c.cst + (c.cnt : ℚ) * k.netWorkFactor) →
        (c.tablePlan = none →
          taskProfile.cost h' t = some (c.cst + (c.cnt : ℚ) * k.netWorkFactor)) ∧
        (c.indexPlan ≠ none → c.tablePlan ≠ none →
          isFloat64 (c.cst + 2 * (c.cnt : ℚ) * k.netWorkFactor) →
          taskProfile.cost h' t = some (c.cst + 2 * (c.cnt : ℚ) * k.netWorkFactor))) := by
  have htlt := lt_of_getElem?_eq_some _ _ _ ht
  have hrun : copTaskProfile.finishTask k h t = some (h.setProfile t (.cop { c with
      cst := if c.tablePlan ≠ none ∧ c.indexPlan ≠ none
        then float64.add (float64.add c.cst (float64.mul (float64.ofUint64 c.cnt) k.netWorkFactor))
            (float64.mul (float64.ofUint64 c.cnt) k.netWorkFactor)
        else float64.add c.cst (float64.mul (float64.ofUint64 c.cnt) k.netWorkFactor) })) := by
    simp only [copTaskProfile.finishTask, ht]
  have hcell := List.getElem?_set_self (a := taskProfile.cop { c with
      cst := if c.tablePlan ≠ none ∧ c.indexPlan ≠ none
        then float64.add (float64.add c.cst (float64.mul (float64.ofUint64 c.cnt) k.netWorkFactor))
            (float64.mul (float64.ofUint64 c.cnt) k.netWorkFactor)
        else float64.add c.cst (float64.mul (float64.ofUint64 c.cnt) k.netWorkFactor) }) htlt
  have hone : c.tablePlan = none →
      taskProfile.cost (h.setProfile t (.cop { c with
        cst := if c.tablePlan ≠ none ∧ c.indexPlan ≠ none
          then float64.add
              (float64.add c.cst (float64.mul (float64.ofUint64 c.cnt) k.netWorkFactor))
              (float64.mul (float64.ofUint64 c.cnt) k.netWorkFactor)
          else float64.add c.cst (float64.mul (float64.ofUint64 c.cnt) k.netWorkFactor) })) t
        = some (float64.add c.cst (float64.mul (float64.ofUint64 c.cnt) k.netWorkFactor)) := by
    intro hnil
    rw [cost_of_cell _ t _ hcell]
    simp [profileCost, hnil]
  have htwo : c.indexPlan ≠ none → c.tablePlan ≠ none →
      taskProfile.cost (h.setProfile t (.cop { c with
        cst := if c.tablePlan ≠ none ∧ c.indexPlan ≠ none
          then float64.add
              (float64.add c.cst (float64.mul (float64.ofUint64 c.cnt) k.netWorkFactor))
              (float64.mul (float64.ofUint64 c.cnt) k.netWorkFactor)
          else float64.add c.cst (float64.mul (float64.ofUint64 c.cnt) k.netWorkFactor) })) t
        = some (float64.add
            (float64.add c.cst (float64.mul (float64.ofUint64 c.cnt) k.netWorkFactor))
            (float64.mul (float64.ofUint64 c.cnt) k.netWorkFactor)) := by
    intro hi htab
    rw [cost_of_cell _ t _ hcell]
    simp only [profileCost, hi, htab, ne_eq, not_false_eq_true, and_self, if_true]
  refine ⟨_, hrun, ?_, hone, htwo, ?_⟩
  · rw [count_of_cell _ t _ hcell]
    rfl
  · intro hn hprod hsum
    have hx := mul_ofUint64_exact c.cnt k.netWorkFactor hn hprod
    have hfirst : float64.add c.cst (float64.mul (float64.ofUint64 c.cnt) k.netWorkFactor)
        = c.cst + (c.cnt : ℚ) * k.netWorkFactor := by
      rw [hx]
      exact hsum
    refine ⟨fun hnil => ?_, fun hi htab hsum2 => ?_⟩
    · rw [hone hnil, hfirst]
    · rw [htwo hi htab, hfirst, hx]
      have heq : c.cst + (c.cnt : ℚ) * k.netWorkFactor + (c.cnt : ℚ) * k.netWorkFactor
          = c.cst + 2 * (c.cnt : ℚ) * k.netWorkFactor := by ring
      unfold float64.add
      rw [heq, hsum2]

/-- The witness of C10, with `netWorkFactor = 1.5`, where nothing is rounded: the index-only
cop task with cost 2 and 300 rows gets the cost `2 + 300 * 1.5 = 452`, and the cop task with
both subtrees, cost 0 and 500 rows gets `0 + 2 * 500 * 1.5 = 1500`. -/
theorem finishTask_cost_witness :
    (∃ h', copTaskProfile.finishTask dyadicFactors exampleHeap 3 = some h' ∧
      taskProfile.count h' 3 = some 300 ∧
      taskProfile.cost h' 3
        = some (float64.add 2 (float64.mul (float64.ofUint64 300) dyadicFactors.netWorkFactor)) ∧
      taskProfile.cost h' 3 = some 452)
    ∧ (∃ h', copTaskProfile.finishTask dyadicFactors exampleHeap 0 = some h' ∧
      taskProfile.count h' 0 = some 500 ∧
      taskProfile.cost h' 0
        = some (float64.add
            (float64.add 0 (float64.mul (float64.ofUint64 500) dyadicFactors.netWorkFactor))
            (float64.mul (float64.ofUint64 500) dyadicFactors.netWorkFactor)) ∧
      taskProfile.cost h' 0 = some 1500) := by
  constructor
  · obtain ⟨h', hrun, hcount, hone, _, hexact⟩ :=
      finishTask_cost dyadicFactors exampleHeap 3 ⟨some 0, none, 2, 300, true⟩ rfl
    have e1 : ((300 : ℕ) : ℚ) * dyadicFactors.netWorkFactor = ((450 : ℕ) : ℚ) := by
      norm_num [dyadicFactors]
    have e2 : (2 : ℚ) + ((300 : ℕ) : ℚ) * dyadicFactors.netWorkFactor = ((452 : ℕ) : ℚ) := by
      norm_num [dyadicFactors]
    have h1 : isFloat64 ((300 : ℕ) : ℚ) := isFloat64_natCast 300 (by norm_num)
    have h2 : isFloat64 (((300 : ℕ) : ℚ) * dyadicFactors.netWorkFactor) := by
      rw [e1]
      exact isFloat64_natCast 450 (by norm_num)
    have h3 : isFloat64 ((2 : ℚ) + ((300 : ℕ) : ℚ) * dyadicFactors.netWorkFactor) := by
      rw [e2]
      exact isFloat64_natCast 452 (by norm_num)
    have hcost := (hexact h1 h2 h3).1 rfl
    refine ⟨h', hrun, hcount, hone rfl, hcost.trans (congrArg some ?_)⟩
    rw [e2]
    norm_num
  · obtain ⟨h', hrun, hcount, _, htwo, hexact⟩ :=
      finishTask_cost dyadicFactors exampleHeap 0 ⟨some 0, some 1, 0, 500, true⟩ rfl
    have e1 : ((500 : ℕ) : ℚ) * dyadicFactors.netWorkFactor = ((750 : ℕ) : ℚ) := by
      norm_num [dyadicFactors]
    have e2 : (0 : ℚ) + ((500 : ℕ) : ℚ) * dyadicFactors.netWorkFactor = ((750 : ℕ) : ℚ) := by
      norm_num [dyadicFactors]
    have e3 : (0 : ℚ) + 2 * ((500 : ℕ) : ℚ) * dyadicFactors.netWorkFactor
        = ((1500 : ℕ) : ℚ) := by
      norm_num [dyadicFactors]
    have h1 : isFloat64 ((500 : ℕ) : ℚ) := isFloat64_natCast 500 (by norm_num)
    have h2 : isFloat64 (((500 : ℕ) : ℚ) * dyadicFactors.netWorkFactor) := by
      rw [e1]
      exact isFloat64_natCast 750 (by norm_num)
    have h3 : isFloat64 ((0 : ℚ) + ((500 : ℕ) : ℚ) * dyadicFactors.netWorkFactor) := by
      rw [e2]
      exact isFloat64_natCast 750 (by norm_num)
    have h4 : isFloat64 ((0 : ℚ) + 2 * ((500 : ℕ) : ℚ) * dyadicFactors.netWorkFactor) := by
      rw [e3]
      exact isFloat64_natCast 1500 (by norm_num)
    have hcost := (hexact h1 h2 h3).2 (by decide) (by decide) h4
    refine ⟨h', hrun, hcount, htwo (by decide) (by decide),
      hcost.trans (congrArg some ?_)⟩
    rw [e3]
    norm_num

/-! ## `attachPlan` and the attachment rules, case by case: claims -/

/-- C11: `attachPlan` of a plan node `p` on a cop task returns a profile whose active subtree
(`indexPlan` on the index side, else `tablePlan`) is `p`, with the previous active subtree as
the only child of `p`, and whose other subtree, side flag, cost and count are those of the
receiver; on a root task it returns a profile whose plan is `p`, with the previous plan as the
child of `p`, and whose cost and count are those of the receiver. -/
theorem attachPlan_frame (h : Heap) (t a : Addr) (prof : taskProfile)
    (ht : h.profiles[t]? = some prof) (ha : a < h.plans.length) :
    ∃ h' r v, taskProfile.attachPlan h t (some a) = some (h', r) ∧
      h'.profiles[r]? = some v ∧
      childrenOf h' a = some [activePlan prof] ∧
      activePlan v = some a ∧
      attachedOnto a prof v := by
  have hnode : h.plans[a]? = some h.plans[a] := List.getElem?_eq_getElem ha
  cases prof with
  | root r0 =>
    have hrun := root_attachPlan_spec h t a r0 _ ht hnode
    have hdisp : taskProfile.attachPlan h t (some a) = rootTaskProfile.attachPlan h t (some a) := by
      simp only [taskProfile.attachPlan, ht]
    rw [← hdisp] at hrun
    refine ⟨_, _, _, hrun, List.getElem?_concat_length _ _, ?_, rfl, rfl, rfl, rfl⟩
    simp [childrenOf, List.getElem?_set_self ha, activePlan]
  | cop c =>
    have hrun := cop_attachPlan_spec h t a c _ ht hnode
    have hdisp : taskProfile.attachPlan h t (some a) = copTaskProfile.attachPlan h t (some a) := by
      simp only [taskProfile.attachPlan, ht]
    rw [← hdisp] at hrun
    refine ⟨_, _, _, hrun, List.getElem?_concat_length _ _, ?_, ?_, ?_⟩
    · simp [childrenOf, List.getElem?_set_self ha, activePlan]
    · cases hflag : c.addPlan2Index <;> simp [activePlan, hflag]
    · cases hflag : c.addPlan2Index <;> simp [attachedOnto, hflag]

/-- The witness of C11: the limit node attached to the index-side cop task of the worked
example. -/
theorem attachPlan_frame_witness :
    ∃ h' r v, taskProfile.attachPlan exampleHeap 0 (some 3) = some (h', r) ∧
      h'.profiles[r]? = some v ∧
      childrenOf h' 3 = some [activePlan (.cop ⟨some 0, some 1, 0, 500, true⟩)] ∧
      activePlan v = some 3 ∧
      attachedOnto 3 (.cop ⟨some 0, some 1, 0, 500, true⟩) v :=
  attachPlan_frame exampleHeap 0 3 (.cop ⟨some 0, some 1, 0, 500, true⟩) rfl (by decide)

/-- C12 as stated fails: on the index-only cop task with `3 * 2 ^ 49` rows, with the float64
value of `0.8` as selection factor, `Selection.attach2TaskProfile` returns the count
1351079888211149 while `floor (C * selectionFactor)` is 1351079888211148. -/
theorem index_only_count_is_not_floor :
    ∃ h' r, Selection.attach2TaskProfile exampleFactors floatHeap 2 [1] = some (h', r) ∧
      taskProfile.count floatHeap 1 = some 1688849860263936 ∧
      tablePlanOf floatHeap 1 = some none ∧
      taskProfile.count h' r = some 1351079888211149 ∧
      ⌊((1688849860263936 : ℕ) : ℚ) * exampleFactors.selectionFactor⌋₊ = 1351079888211148 := by
  refine ⟨_, _,
    selection_attach_index_only_spec exampleFactors floatHeap 2 1 []
      ⟨some 0, none, 0, 1688849860263936, true⟩ _ rfl rfl rfl rfl,
    count_of_cell floatHeap 1 _ rfl, by decide, ?_, ?_⟩
  · exact (count_of_new_cop _ _ _ _ _ _ _).trans (congrArg some eval_scaled_count)
  · rw [Nat.floor_eq_iff (by norm_num [exampleFactors])]
    constructor <;> norm_num [exampleFactors]

/-- C12, amended: on an index-side cop task without table subtree, with count `C` and cost
`cost0`, `Selection.attach2TaskProfile` returns a cop task whose `indexPlan` is the filter
node, still with all its predicates and now with the previous `indexPlan` as its child, whose
`tablePlan` is nil and side flag index-side, whose count is
`uint64(float64(C) * selectionFactor)` and whose cost is the float64 sum of `cost0` and the
float64 product `float64(C) * cpuFactor`; these are `floor (C * selectionFactor)` and
`cost0 + C * cpuFactor` whenever the products and the sum are float64 values, so that nothing
is rounded. -/
theorem selection_attach_index_only (k : CostFactors) (h : Heap) (sel p : Addr) (ps : List Addr)
    (c : copTaskProfile) (P : List Expression) (ch : List PhysicalPlan) (sch : Schema)
    (hp : h.profiles[p]? = some (.cop c)) (hflag : c.addPlan2Index = true)
    (htab : c.tablePlan = none) (hsel : h.plans[sel]? = some ⟨.Selection P, ch, sch⟩) :
    ∃ h' r c', Selection.attach2TaskProfile k h sel (p :: ps) = some (h', r) ∧
      h'.profiles[r]? = some (.cop c') ∧
      c'.indexPlan = some sel ∧
      h'.plans[sel]? = some ⟨.Selection P, [c.indexPlan], sch⟩ ∧
      c'.tablePlan = none ∧ c'.addPlan2Index = true ∧
      c'.cnt = float64.toUint64 (float64.mul (float64.ofUint64 c.cnt) k.selectionFactor) ∧
      c'.cst = float64.add c.cst (float64.mul (float64.ofUint64 c.cnt) k.cpuFactor) ∧
      (isFloat64 (c.cnt : ℚ) →
        (isFloat64 ((c.cnt : ℚ) * k.selectionFactor) → (c.cnt : ℚ) * k.selectionFactor < 2 ^ 64 →
          c'.cnt = ⌊(c.cnt : ℚ) * k.selectionFactor⌋₊) ∧
        (isFloat64 ((c.cnt : ℚ) * k.cpuFactor) → isFloat64 (c.cst + (c.cnt : ℚ) * k.cpuFactor) →
          c'.cst = c.cst + (c.cnt : ℚ) * k.cpuFactor)) := by
  have hlt := lt_of_getElem?_eq_some _ _ _ hsel
  refine ⟨_, _, _, selection_attach_index_only_spec k h sel p ps c _ hp hflag htab hsel,
    List.getElem?_concat_length _ _, rfl, ?_, htab, hflag, rfl, rfl, ?_⟩
  · exact List.getElem?_set_self hlt
  · intro hn
    refine ⟨fun hprod hrange => toUint64_mul_exact _ _ hn hprod hrange, fun hprod hsum => ?_⟩
    show float64.add c.cst (float64.mul (float64.ofUint64 c.cnt) k.cpuFactor)
      = c.cst + (c.cnt : ℚ) * k.cpuFactor
    rw [mul_ofUint64_exact _ _ hn hprod]
    exact hsum

/-- The witness of C12: the filter of the worked example attached to the index-only cop task
with cost 2 and 300 rows, with `cpuFactor = 0.5` and `selectionFactor = 0.25`, where nothing is
rounded: the count is `floor (300 * 0.25) = 75` and the cost `2 + 300 * 0.5 = 152`. -/
theorem selection_attach_index_only_witness :
    ∃ h' r c', Selection.attach2TaskProfile dyadicFactors exampleHeap 2 (3 :: []) = some (h', r) ∧
      h'.profiles[r]? = some (.cop c') ∧
      c'.indexPlan = some 2 ∧
      h'.plans[2]? = some ⟨.Selection [⟨1, [⟨1⟩]⟩, ⟨2, [⟨2⟩]⟩], [some 0], []⟩ ∧
      c'.tablePlan = none ∧ c'.addPlan2Index = true ∧
      c'.cnt = float64.toUint64
        (float64.mul (float64.ofUint64 300) dyadicFactors.selectionFactor) ∧
      c'.cst = float64.add 2 (float64.mul (float64.ofUint64 300) dyadicFactors.cpuFactor) ∧
      c'.cnt = 75 ∧ c'.cst = 152 := by
  obtain ⟨h', r, c', hrun, hcell, hidx, hnode, htab, hflag, hcnt, hcst, hexact⟩ :=
    selection_attach_index_only dyadicFactors exampleHeap 2 3 []
      ⟨some 0, none, 2, 300, true⟩ [⟨1, [⟨1⟩]⟩, ⟨2, [⟨2⟩]⟩] [] [] rfl rfl rfl rfl
  have e1 : ((300 : ℕ) : ℚ) * dyadicFactors.selectionFactor = ((75 : ℕ) : ℚ) := by
    norm_num [dyadicFactors]
  have e2 : ((300 : ℕ) : ℚ) * dyadicFactors.cpuFactor = ((150 : ℕ) : ℚ) := by
    norm_num [dyadicFactors]
  have e3 : (2 : ℚ) + ((300 : ℕ) : ℚ) * dyadicFactors.cpuFactor = ((152 : ℕ) : ℚ) := by
    norm_num [dyadicFactors]
  have h1 : isFloat64 ((300 : ℕ) : ℚ) := isFloat64_natCast 300 (by norm_num)
  have h2 : isFloat64 (((300 : ℕ) : ℚ) * dyadicFactors.selectionFactor) := by
    rw [e1]
    exact isFloat64_natCast 75 (by norm_num)
  have h3 : ((300 : ℕ) : ℚ) * dyadicFactors.selectionFactor < 2 ^ 64 := by
    rw [e1]
    norm_num
  have h4 : isFloat64 (((300 : ℕ) : ℚ) * dyadicFactors.cpuFactor) := by
    rw [e2]
    exact isFloat64_natCast 150 (by norm_num)
  have h5 : isFloat64 ((2 : ℚ) + ((300 : ℕ) : ℚ) * dyadicFactors.cpuFactor) := by
    rw [e3]
    exact isFloat64_natCast 152 (by norm_num)
  have hc1 := (hexact h1).1 h2 h3
  have hc2 := (hexact h1).2 h4 h5
  refine ⟨h', r, c', hrun, hcell, hidx, hnode, htab, hflag, hcnt, hcst, ?_, ?_⟩
  · rw [hc1, e1]
    exact Nat.floor_natCast 75
  · rw [hc2, e3]
    norm_num

/-- C13 as stated fails: on the table-side cop task of the second worked example, whose table
subtree is node 1, the filter node 2 without any predicate is attached all the same, and the
returned profile has node 2 as its table subtree. -/
theorem empty_filter_is_attached_on_table_side :
    conditionsOf emptyFilterHeap (some 2) = []
    ∧ tablePlanOf emptyFilterHeap 0 = some (some 1)
    ∧ (Selection.attach2TaskProfile exampleFactors emptyFilterHeap 2 [0]).map
        (fun r => (tablePlanOf r.1 r.2, childrenOf r.1 2)) = some (some (some 2), some [some 1])
    ∧ ¬ ∀ (h' : Heap) (r : Addr),
        Selection.attach2TaskProfile exampleFactors emptyFilterHeap 2 [0] = some (h', r) →
          tablePlanOf h' r = tablePlanOf emptyFilterHeap 0 := by
  have hrun : (Selection.attach2TaskProfile exampleFactors emptyFilterHeap 2 [0]).map
      (fun r => (tablePlanOf r.1 r.2, childrenOf r.1 2)) = some (some (some 2), some [some 1]) := by
    decide
  refine ⟨by decide, by decide, hrun, ?_⟩
  intro hall
  cases hres : Selection.attach2TaskProfile exampleFactors emptyFilterHeap 2 [0] with
  | none => simp [hres] at hrun
  | some res =>
    have hsame := hall res.1 res.2 hres
    rw [hres] at hrun
    simp only [Option.map_some', Option.some.injEq, Prod.mk.injEq] at hrun
    rw [hrun.1] at hsame
    revert hsame
    decide

/-- C13, amended: with a filter node that has no predicate, `Selection.attach2TaskProfile` on
an index-side cop task with a table subtree (the case that splits) builds no filter node and
returns a profile with the `indexPlan` and the `tablePlan` of the receiver; on an index-side
cop task without table subtree the filter node becomes the `indexPlan`, and on a table-side
cop task it becomes the `tablePlan`. -/
theorem empty_filter_attach (k : CostFactors) (h : Heap) (sel p : Addr) (ps : List Addr)
    (c : copTaskProfile) (ch : List PhysicalPlan) (sch : Schema)
    (hp : h.profiles[p]? = some (.cop c))
    (hsel : h.plans[sel]? = some ⟨.Selection [], ch, sch⟩)
    (hsp : splittable h p = true) :
    ∃ h' r c', Selection.attach2TaskProfile k h sel (p :: ps) = some (h', r) ∧
      h'.profiles[r]? = some (.cop c') ∧
      (c.addPlan2Index = true → c.tablePlan ≠ none →
        c'.indexPlan = c.indexPlan ∧ c'.tablePlan = c.tablePlan ∧ h'.plans = h.plans) ∧
      (c.addPlan2Index = true → c.tablePlan = none →
        c'.indexPlan = some sel ∧ c'.tablePlan = none) ∧
      (c.addPlan2Index = false → c'.tablePlan = some sel ∧ c'.indexPlan = c.indexPlan) := by
  cases hflag : c.addPlan2Index with
  | false =>
    refine ⟨_, _, _, selection_attach_table_side_spec k h sel p ps c _ hp hflag hsel,
      List.getElem?_concat_length _ _, ?_, ?_, ?_⟩ <;> simp
  | true =>
    cases htab : c.tablePlan with
    | none =>
      refine ⟨_, _, _, selection_attach_index_only_spec k h sel p ps c _ hp hflag htab hsel,
        List.getElem?_concat_length _ _, ?_, ?_, ?_⟩ <;> simp [htab]
    | some tp =>
      obtain ⟨ip, nip, hidx, hnip⟩ := splittable_cop h p tp c hp hflag htab hsp
      obtain ⟨h', C', hrun, hC', hprof, hplans⟩ :=
        selection_attach_split_spec k h sel p ip tp ps c nip [] ch sch hp hflag htab hidx
          hnip hsel
      have hC'nil : C' = [] := List.eq_nil_of_length_eq_zero (by simpa using hC')
      subst hC'nil
      simp only [List.filter_nil, if_true, List.append_nil, decide_True] at hprof hplans
      have hcell := cell_of_append _ _ _ hprof
      refine ⟨h', _, _, hrun, hcell, ?_, ?_, ?_⟩
      · intro _ _
        refine ⟨hidx.symm, rfl, ?_⟩
        rw [hplans]
        exact set_same_cell _ _ _ hsel
      · intro _ hno
        cases hno
      · intro hno
        cases hno

/-- The witness of C13: the filter without predicate attached to the index-side cop task with
a table subtree of the second worked example. -/
theorem empty_filter_attach_witness :
    ∃ h' r c', Selection.attach2TaskProfile exampleFactors emptyFilterHeap 2 (1 :: [])
        = some (h', r) ∧
      h'.profiles[r]? = some (.cop c') ∧
      (true = true → (some 1 : PhysicalPlan) ≠ none →
        c'.indexPlan = some 0 ∧ c'.tablePlan = some 1 ∧ h'.plans = emptyFilterHeap.plans) ∧
      (true = true → (some 1 : PhysicalPlan) = none →
        c'.indexPlan = some 2 ∧ c'.tablePlan = none) ∧
      (true = false → c'.tablePlan = some 2 ∧ c'.indexPlan = some 0) :=
  empty_filter_attach exampleFactors emptyFilterHeap 2 1 [] ⟨some 0, some 1, 0, 500, true⟩ [] []
    rfl rfl (by decide)

/-- C14 as stated fails: on the index-side cop task with a table subtree, 1 row and the
float64 value of `0.1` as cost, with the float64 value of `0.9` as `cpuFactor`, the filter with
one predicate of each kind charges twice and `Selection.attach2TaskProfile` returns the cost
`(0.1 + 0.9) + 0.9` computed in float64, which is neither the exact `c + 2 * C * cpuFactor` nor
that formula computed in float64. -/
theorem split_filter_cost_is_rounded :
    filterCharges floatHeap (.cop ⟨some 0, some 1, 3602879701896397 / 36028797018963968, 1, true⟩)
        [⟨1, [⟨1⟩]⟩, ⟨2, [⟨2⟩]⟩] = 2
    ∧ (∃ h' r, Selection.attach2TaskProfile exampleFactors floatHeap 2 [3] = some (h', r) ∧
        taskProfile.cost h' r = some (4278419646001971 / 2251799813685248))
    ∧ (3602879701896397 / 36028797018963968 : ℚ) + 2 * (((1 : ℕ) : ℚ) * exampleFactors.cpuFactor)
        = 68454714336031541 / 36028797018963968
    ∧ (4278419646001971 / 2251799813685248 : ℚ) ≠ 68454714336031541 / 36028797018963968
    ∧ float64.add (3602879701896397 / 36028797018963968)
        (float64.mul 2 (float64.mul (float64.ofUint64 1) exampleFactors.cpuFactor))
        = 8556839292003943 / 4503599627370496
    ∧ (4278419646001971 / 2251799813685248 : ℚ) ≠ 8556839292003943 / 4503599627370496 := by
  have hj : filterCharges floatHeap
      (.cop ⟨some 0, some 1, 3602879701896397 / 36028797018963968, 1, true⟩)
      [⟨1, [⟨1⟩]⟩, ⟨2, [⟨2⟩]⟩] = 2 := by decide
  refine ⟨hj, ?_, by norm_num [exampleFactors], by norm_num, ?_, by norm_num⟩
  · obtain ⟨h', r, hrun, hcost⟩ := selection_attach_cost_formula exampleFactors floatHeap 2 3 []
      (.cop ⟨some 0, some 1, 3602879701896397 / 36028797018963968, 1, true⟩)
      [⟨1, [⟨1⟩]⟩, ⟨2, [⟨2⟩]⟩] [] [] rfl rfl (by decide)
    rw [hj, profileCost_cop_mk, profileCount_cop_mk, eval_cpu_charge, eval_charge_twice] at hcost
    exact ⟨h', r, hrun, hcost⟩
  · rw [eval_cpu_charge, eval_charge_formula]

/-- C14, amended: `Selection.attach2TaskProfile` on a profile with count `C` and cost `c`
returns the cost obtained from `c` by `j` float64 additions of the float64 product
`float64(C) * cpuFactor`, one after the other, with `j = 1` for a root task, for a table-side
cop task and for an index-side cop task without table subtree, and, for an index-side cop task
with a table subtree, `j` the number of sides of the split that are not empty; that cost is
`c + j * C * cpuFactor` whenever the product and every intermediate sum are float64 values, so that
nothing is rounded. -/
theorem selection_attach_cost (k : CostFactors) (h : Heap) (sel p : Addr) (ps : List Addr)
    (prof : taskProfile) (P : List Expression) (ch : List PhysicalPlan) (sch : Schema)
    (hp : h.profiles[p]? = some prof)
    (hsel : h.plans[sel]? = some ⟨.Selection P, ch, sch⟩)
    (hsp : splittable h p = true) :
    ∃ h' r, Selection.attach2TaskProfile k h sel (p :: ps) = some (h', r) ∧
      taskProfile.cost h' r
        = some (float64.addTimes (filterCharges h prof P) (profileCost prof)
            (float64.mul (float64.ofUint64 (profileCount prof)) k.cpuFactor)) ∧
      filterCharges h prof P ≤ 2 ∧
      (isFloat64 (profileCount prof : ℚ) →
        isFloat64 ((profileCount prof : ℚ) * k.cpuFactor) →
        (∀ i : ℕ, i < filterCharges h prof P →
          isFloat64 (profileCost prof
            + ((i : ℚ) + 1) * ((profileCount prof : ℚ) * k.cpuFactor))) →
        taskProfile.cost h' r
          = some (profileCost prof
              + (filterCharges h prof P : ℚ) * ((profileCount prof : ℚ) * k.cpuFactor))) := by
  obtain ⟨h', r, hrun, hcost⟩ :=
    selection_attach_cost_formula k h sel p ps prof P ch sch hp hsel hsp
  refine ⟨h', r, hrun, hcost, filterCharges_le_two h prof P, ?_⟩
  intro hn hprod hsums
  rw [hcost, mul_ofUint64_exact _ _ hn hprod, addTimes_exact _ _ _ hsums]

/-- The witness of C14: the filter of the worked example, one predicate of each kind, attached
to the index-side cop task with a table subtree, cost 0 and 500 rows, with `cpuFactor = 0.5`,
where nothing is rounded: two charges, and the cost is `0 + 2 * 500 * 0.5 = 500`. -/
theorem selection_attach_cost_witness :
    filterCharges exampleHeap (.cop ⟨some 0, some 1, 0, 500, true⟩)
        [⟨1, [⟨1⟩]⟩, ⟨2, [⟨2⟩]⟩] = 2
    ∧ ∃ h' r, Selection.attach2TaskProfile dyadicFactors exampleHeap 2 (0 :: []) = some (h', r) ∧
      taskProfile.cost h' r
        = some (float64.addTimes 2 0
            (float64.mul (float64.ofUint64 500) dyadicFactors.cpuFactor)) ∧
      taskProfile.cost h' r = some 500 := by
  have hj : filterCharges exampleHeap (.cop ⟨some 0, some 1, 0, 500, true⟩)
      [⟨1, [⟨1⟩]⟩, ⟨2, [⟨2⟩]⟩] = 2 := by decide
  refine ⟨hj, ?_⟩
  obtain ⟨h', r, hrun, hcost, _, hexact⟩ :=
    selection_attach_cost dyadicFactors exampleHeap 2 0 [] (.cop ⟨some 0, some 1, 0, 500, true⟩)
      [⟨1, [⟨1⟩]⟩, ⟨2, [⟨2⟩]⟩] [] [] rfl rfl (by decide)
  rw [hj, profileCost_cop_mk, profileCount_cop_mk] at hcost hexact
  have e1 : ((500 : ℕ) : ℚ) * dyadicFactors.cpuFactor = ((250 : ℕ) : ℚ) := by
    norm_num [dyadicFactors]
  have h1 : isFloat64 ((500 : ℕ) : ℚ) := isFloat64_natCast 500 (by norm_num)
  have h2 : isFloat64 (((500 : ℕ) : ℚ) * dyadicFactors.cpuFactor) := by
    rw [e1]
    exact isFloat64_natCast 250 (by norm_num)
  have h3 : ∀ i : ℕ, i < 2 →
      isFloat64 ((0 : ℚ) + ((i : ℚ) + 1) * (((500 : ℕ) : ℚ) * dyadicFactors.cpuFactor)) := by
    intro i hi
    rw [e1]
    interval_cases i
    · have e : (0 : ℚ) + (((0 : ℕ) : ℚ) + 1) * ((250 : ℕ) : ℚ) = ((250 : ℕ) : ℚ) := by norm_num
      rw [e]
      exact isFloat64_natCast 250 (by norm_num)
    · have e : (0 : ℚ) + (((1 : ℕ) : ℚ) + 1) * ((250 : ℕ) : ℚ) = ((500 : ℕ) : ℚ) := by norm_num
      rw [e]
      exact isFloat64_natCast 500 (by norm_num)
  have hex := hexact h1 h2 h3
  refine ⟨h', r, hrun, hcost, hex.trans (congrArg some ?_)⟩
  rw [e1]
  norm_num

/-- C15: `Selection.attach2TaskProfile` on an index-side cop task returns a table-side profile
exactly when the receiver has a table subtree and some predicate of the filter references a
column absent from the schema of the index subtree; then the new `tablePlan` is a filter node
that did not exist before the call, is not the filter node `sel`, and has the previous
`tablePlan` as its child; otherwise the `tablePlan` and the side flag are those of the
receiver. -/
theorem selection_attach_flip (k : CostFactors) (h : Heap) (sel p : Addr) (ps : List Addr)
    (c : copTaskProfile) (P : List Expression) (ch : List PhysicalPlan) (sch : Schema)
    (hp : h.profiles[p]? = some (.cop c)) (hflag : c.addPlan2Index = true)
    (hsel : h.plans[sel]? = some ⟨.Selection P, ch, sch⟩)
    (hsp : splittable h p = true) :
    ∃ h' r c', Selection.attach2TaskProfile k h sel (p :: ps) = some (h', r) ∧
      h'.profiles[r]? = some (.cop c') ∧
      (c'.addPlan2Index = false ↔
        c.tablePlan ≠ none ∧ ∃ S, PlanSchema h c.indexPlan = some S ∧
          ∃ e ∈ P, ∃ col ∈ ExtractColumns e, col ∉ S) ∧
      (c'.addPlan2Index = false →
        ∃ nw tc, c'.tablePlan = some nw ∧ nw ≠ sel ∧ h.plans[nw]? = none ∧
          h'.plans[nw]? = some ⟨.Selection tc, [c.tablePlan], []⟩) ∧
      (c'.addPlan2Index = true → c'.tablePlan = c.tablePlan) := by
  have hsel_lt := lt_of_getElem?_eq_some _ _ _ hsel
  cases htab : c.tablePlan with
  | none =>
    refine ⟨_, _, _, selection_attach_index_only_spec k h sel p ps c _ hp hflag htab hsel,
      List.getElem?_concat_length _ _, ?_, ?_, ?_⟩
    · simp [hflag]
    · intro hno
      simp [hflag] at hno
    · intro _
      exact htab
  | some tp =>
    obtain ⟨ip, nip, hidx, hnip⟩ := splittable_cop h p tp c hp hflag htab hsp
    obtain ⟨h', C', hrun, _, hprof, hplans⟩ :=
      selection_attach_split_spec k h sel p ip tp ps c nip P ch sch hp hflag htab hidx
        hnip hsel
    have hcell := cell_of_append _ _ _ hprof
    have hschema : PlanSchema h (some ip) = some nip.schema := by simp [PlanSchema, hnip]
    refine ⟨h', _, _, hrun, hcell, ?_, ?_, ?_⟩
    · simp only [decide_eq_false_iff_not, filter_uncoverable_ne_nil_iff, hidx, hschema, ne_eq,
        reduceCtorEq, not_false_eq_true, true_and, Option.some.injEq]
      constructor
      · intro hex
        exact ⟨nip.schema, rfl, hex⟩
      · rintro ⟨S, hS, hex⟩
        subst hS
        exact hex
    · intro hfl
      have hT : ¬ P.filter (fun e => !coverable nip.schema e) = [] := by
        simpa using hfl
      refine ⟨h.plans.length, (P.filter (fun e => !coverable nip.schema e)).reverse,
        by simp [hT], Nat.ne_of_gt hsel_lt, List.getElem?_eq_none (Nat.le_refl _), ?_⟩
      rw [hplans]
      simp only [hT, if_false]
      rw [List.getElem?_append_right (by simp)]
      simp
    · intro hfl
      have hT : P.filter (fun e => !coverable nip.schema e) = [] := by
        simpa using hfl
      simp [hT]

/-- The witness of C15: the filter of the worked example attached to the index-side cop task
with a table subtree; its predicate on column 2 needs the table. -/
theorem selection_attach_flip_witness :
    ∃ h' r c', Selection.attach2TaskProfile exampleFactors exampleHeap 2 (0 :: []) = some (h', r) ∧
      h'.profiles[r]? = some (.cop c') ∧
      (c'.addPlan2Index = false ↔
        (some 1 : PhysicalPlan) ≠ none ∧ ∃ S, PlanSchema exampleHeap (some 0) = some S ∧
          ∃ e ∈ ([⟨1, [⟨1⟩]⟩, ⟨2, [⟨2⟩]⟩] : List Expression),
            ∃ col ∈ ExtractColumns e, col ∉ S) ∧
      (c'.addPlan2Index = false →
        ∃ nw tc, c'.tablePlan = some nw ∧ nw ≠ 2 ∧ exampleHeap.plans[nw]? = none ∧
          h'.plans[nw]? = some ⟨.Selection tc, [some 1], []⟩) ∧
      (c'.addPlan2Index = true → c'.tablePlan = some 1) :=
  selection_attach_flip exampleFactors exampleHeap 2 0 [] ⟨some 0, some 1, 0, 500, true⟩
    [⟨1, [⟨1⟩]⟩, ⟨2, [⟨2⟩]⟩] [] [] rfl rfl rfl (by decide)

/-- C16: on a profile of either variant and a limit node of value `L`,
`Limit.attach2TaskProfile` is `attachPlan` of the limit node followed by the count set to `L`;
it returns a profile with the cost of the receiver, the count `L`, and the limit node as root
of the active subtree, over the previous active subtree. -/
theorem limit_attach_refines (h : Heap) (limit p : Addr) (ps : List Addr) (prof : taskProfile)
    (L : Nat) (ch : List PhysicalPlan) (sch : Schema)
    (hp : h.profiles[p]? = some prof) (hl : h.plans[limit]? = some ⟨.Limit L, ch, sch⟩) :
    Limit.attach2TaskProfile h limit (p :: ps) = specLimitAttach h limit L p ∧
    ∃ h' r v, Limit.attach2TaskProfile h limit (p :: ps) = some (h', r) ∧
      h'.profiles[r]? = some v ∧
      taskProfile.cost h' r = taskProfile.cost h p ∧
      taskProfile.count h' r = some L ∧
      activePlan v = some limit ∧
      childrenOf h' limit = some [activePlan prof] := by
  have hlt := lt_of_getElem?_eq_some _ _ _ hl
  cases prof with
  | root r0 =>
    have hrun := limit_attach_root_spec h limit p ps r0 L ch sch hp hl
    have hcell : (h.profiles ++ [taskProfile.root { r0 with plan := some limit, cnt := L }])[
        h.profiles.length]? = some (.root { r0 with plan := some limit, cnt := L }) :=
      List.getElem?_concat_length _ _
    refine ⟨?_, _, _, _, hrun, hcell, ?_, ?_, rfl, ?_⟩
    · rw [hrun]
      simp [specLimitAttach, taskProfile.attachPlan, hp,
        root_attachPlan_spec h p limit r0 _ hp hl, taskProfile.setCount,
        rootTaskProfile.setCount, Heap.setProfile, set_concat_length]
    · rw [cost_of_cell _ _ _ hcell, cost_of_cell _ _ _ hp]
      rfl
    · rw [count_of_cell _ _ _ hcell]
      rfl
    · simp [childrenOf, List.getElem?_set_self hlt, activePlan]
  | cop c =>
    have hrun := limit_attach_cop_spec h limit p ps c L ch sch hp hl
    have hcell : (h.profiles ++ [taskProfile.cop
        (if c.addPlan2Index then { c with indexPlan := some limit, cnt := L }
          else { c with tablePlan := some limit, cnt := L })])[h.profiles.length]?
        = some (.cop (if c.addPlan2Index then { c with indexPlan := some limit, cnt := L }
          else { c with tablePlan := some limit, cnt := L })) :=
      List.getElem?_concat_length _ _
    refine ⟨?_, _, _, _, hrun, hcell, ?_, ?_, ?_, ?_⟩
    · rw [hrun]
      cases hflag : c.addPlan2Index <;>
        simp [specLimitAttach, taskProfile.attachPlan, hp,
          cop_attachPlan_spec h p limit c _ hp hl, hflag, taskProfile.setCount,
          copTaskProfile.setCount, Heap.setProfile, set_concat_length]
    · rw [cost_of_cell _ _ _ hcell, cost_of_cell _ _ _ hp]
      cases c.addPlan2Index <;> simp [profileCost]
    · rw [count_of_cell _ _ _ hcell]
      cases c.addPlan2Index <;> simp [profileCount]
    · cases hflag : c.addPlan2Index <;> simp [activePlan, hflag]
    · simp [childrenOf, List.getElem?_set_self hlt, activePlan]

/-- The witness of C16: the limit of 10 rows attached to the root task of the worked
example. -/
theorem limit_attach_refines_witness :
    Limit.attach2TaskProfile exampleHeap 3 (1 :: []) = specLimitAttach exampleHeap 3 10 1 ∧
    ∃ h' r v, Limit.attach2TaskProfile exampleHeap 3 (1 :: []) = some (h', r) ∧
      h'.profiles[r]? = some v ∧
      taskProfile.cost h' r = taskProfile.cost exampleHeap 1 ∧
      taskProfile.count h' r = some 10 ∧
      activePlan v = some 3 ∧
      childrenOf h' 3 = some [activePlan (.root ⟨some 1, 7, 200⟩)] :=
  limit_attach_refines exampleHeap 3 1 [] (.root ⟨some 1, 7, 200⟩) 10 [] [] rfl rfl

/-! ## The predicate splitter, in detail: claims -/

/-- C17: `splitSelectionByIndexColumns` returns a non-nil index-side node exactly when some
predicate references only columns of the schema, and a non-nil table-side node exactly when
some predicate references a column absent from the schema; the index-side node is the filter
node itself, and the table-side node is a filter node that did not exist before the call and is
not the filter node itself. -/
theorem split_returned_nodes (h : Heap) (sel : Addr) (schema : Schema)
    (P : List Expression) (ch : List PhysicalPlan) (sch : Schema)
    (hsel : h.plans[sel]? = some ⟨.Selection P, ch, sch⟩) :
    ∃ h' indexSel tableSel,
      Selection.splitSelectionByIndexColumns h sel schema = some (h', indexSel, tableSel) ∧
      (indexSel ≠ none ↔ ∃ e ∈ P, ∀ c ∈ ExtractColumns e, c ∈ schema) ∧
      (tableSel ≠ none ↔ ∃ e ∈ P, ∃ c ∈ ExtractColumns e, c ∉ schema) ∧
      (∀ a, indexSel = some a → a = sel) ∧
      (∀ a, tableSel = some a →
        a ≠ sel ∧ h.plans[a]? = none ∧ ∃ tc, h'.plans[a]? = some ⟨.Selection tc, [], []⟩) := by
  have hsel_lt := lt_of_getElem?_eq_some _ _ _ hsel
  obtain ⟨C', h', _, hres, _, hplans⟩ := split_spec h sel schema P ch sch hsel
  refine ⟨h', _, _, hres, ?_, ?_, ?_, ?_⟩
  · rw [← filter_coverable_ne_nil_iff]
    by_cases hI : P.filter (fun e => coverable schema e) = [] <;> simp [hI]
  · rw [← filter_uncoverable_ne_nil_iff]
    by_cases hT : P.filter (fun e => !coverable schema e) = [] <;> simp [hT]
  · intro a ha
    by_cases hI : P.filter (fun e => coverable schema e) = []
    · simp [hI] at ha
    · simp only [hI, if_false, Option.some.injEq] at ha
      exact ha.symm
  · intro a ha
    by_cases hT : P.filter (fun e => !coverable schema e) = []
    · simp [hT] at ha
    · simp only [hT, if_false, Option.some.injEq] at ha
      subst ha
      refine ⟨Nat.ne_of_gt hsel_lt, List.getElem?_eq_none (Nat.le_refl _),
        (P.filter (fun e => !coverable schema e)).reverse, ?_⟩
      rw [hplans]
      simp only [hT, if_false]
      rw [List.getElem?_append_right (by simp)]
      simp

/-- The witness of C17: the filter `[b, a]` split against the schema `[1]`. -/
theorem split_returned_nodes_witness :
    ∃ h' indexSel tableSel,
      Selection.splitSelectionByIndexColumns
        ⟨[⟨.Selection [⟨1, [⟨1⟩]⟩, ⟨2, [⟨2⟩]⟩], [], []⟩], []⟩ 0 [⟨1⟩]
          = some (h', indexSel, tableSel) ∧
      (indexSel ≠ none ↔ ∃ e ∈ ([⟨1, [⟨1⟩]⟩, ⟨2, [⟨2⟩]⟩] : List Expression),
        ∀ c ∈ ExtractColumns e, c ∈ ([⟨1⟩] : Schema)) ∧
      (tableSel ≠ none ↔ ∃ e ∈ ([⟨1, [⟨1⟩]⟩, ⟨2, [⟨2⟩]⟩] : List Expression),
        ∃ c ∈ ExtractColumns e, c ∉ ([⟨1⟩] : Schema)) ∧
      (∀ a, indexSel = some a → a = 0) ∧
      (∀ a, tableSel = some a →
        a ≠ 0 ∧ (⟨[⟨.Selection [⟨1, [⟨1⟩]⟩, ⟨2, [⟨2⟩]⟩], [], []⟩], []⟩ : Heap).plans[a]? = none ∧
          ∃ tc, h'.plans[a]? = some ⟨.Selection tc, [], []⟩) :=
  split_returned_nodes ⟨[⟨.Selection [⟨1, [⟨1⟩]⟩, ⟨2, [⟨2⟩]⟩], [], []⟩], []⟩ 0 [⟨1⟩]
    [⟨1, [⟨1⟩]⟩, ⟨2, [⟨2⟩]⟩] [] [] rfl

/-- C18: the predicate list of the table-side node built by `splitSelectionByIndexColumns` is
the sublist of the predicates of `P` that reference a column absent from the schema, each as
often as in `P`, in the reverse of their order in `P`. -/
theorem tableSel_conditions_reversed (h : Heap) (sel : Addr) (schema : Schema)
    (P : List Expression) (ch : List PhysicalPlan) (sch : Schema)
    (hsel : h.plans[sel]? = some ⟨.Selection P, ch, sch⟩) :
    ∃ h' indexSel tableSel,
      Selection.splitSelectionByIndexColumns h sel schema = some (h', indexSel, tableSel) ∧
      conditionsOf h' tableSel
        = (P.filter (fun e => decide (∃ c ∈ ExtractColumns e, c ∉ schema))).reverse ∧
      ∀ a, tableSel = some a →
        h'.plans[a]? = some ⟨.Selection
          (P.filter (fun e => decide (∃ c ∈ ExtractColumns e, c ∉ schema))).reverse, [], []⟩ := by
  obtain ⟨C', h', _, hres, _, hplans⟩ := split_spec h sel schema P ch sch hsel
  rw [← filter_uncoverable_eq]
  refine ⟨h', _, _, hres, ?_, ?_⟩
  · by_cases hT : P.filter (fun e => !coverable schema e) = []
    · simp [hT, conditionsOf]
    · have hcell : h'.plans[h.plans.length]?
          = some ⟨.Selection (P.filter (fun e => !coverable schema e)).reverse, [], []⟩ := by
        rw [hplans]
        simp only [hT, if_false]
        rw [List.getElem?_append_right (by simp)]
        simp
      simp [hT, conditionsOf, hcell]
  · intro a ha
    by_cases hT : P.filter (fun e => !coverable schema e) = []
    · simp [hT] at ha
    · simp only [hT, if_false, Option.some.injEq] at ha
      subst ha
      rw [hplans]
      simp only [hT, if_false]
      rw [List.getElem?_append_right (by simp)]
      simp

/-- The witness of C18: the filter `[t2, i1, t3, i4]`, where `t2` and `t3` need the columns 2
and 3 and `i1` and `i4` the column 1, split against the schema `[1]`: the table-side list is
`[t3, t2]`. -/
theorem tableSel_conditions_reversed_witness :
    (([⟨2, [⟨2⟩]⟩, ⟨1, [⟨1⟩]⟩, ⟨3, [⟨3⟩]⟩, ⟨4, [⟨1⟩]⟩] : List Expression).filter
        (fun e => decide (∃ c ∈ ExtractColumns e, c ∉ ([⟨1⟩] : Schema)))).reverse
      = [⟨3, [⟨3⟩]⟩, ⟨2, [⟨2⟩]⟩]
    ∧ ∃ h' indexSel tableSel,
      Selection.splitSelectionByIndexColumns
        ⟨[⟨.Selection [⟨2, [⟨2⟩]⟩, ⟨1, [⟨1⟩]⟩, ⟨3, [⟨3⟩]⟩, ⟨4, [⟨1⟩]⟩], [], []⟩], []⟩ 0 [⟨1⟩]
          = some (h', indexSel, tableSel) ∧
      conditionsOf h' tableSel
        = (([⟨2, [⟨2⟩]⟩, ⟨1, [⟨1⟩]⟩, ⟨3, [⟨3⟩]⟩, ⟨4, [⟨1⟩]⟩] : List Expression).filter
            (fun e => decide (∃ c ∈ ExtractColumns e, c ∉ ([⟨1⟩] : Schema)))).reverse ∧
      ∀ a, tableSel = some a →
        h'.plans[a]? = some ⟨.Selection
          (([⟨2, [⟨2⟩]⟩, ⟨1, [⟨1⟩]⟩, ⟨3, [⟨3⟩]⟩, ⟨4, [⟨1⟩]⟩] : List Expression).filter
            (fun e => decide (∃ c ∈ ExtractColumns e, c ∉ ([⟨1⟩] : Schema)))).reverse,
          [], []⟩ :=
  ⟨by decide,
   tableSel_conditions_reversed
    ⟨[⟨.Selection [⟨2, [⟨2⟩]⟩, ⟨1, [⟨1⟩]⟩, ⟨3, [⟨3⟩]⟩, ⟨4, [⟨1⟩]⟩], [], []⟩], []⟩ 0 [⟨1⟩]
    [⟨2, [⟨2⟩]⟩, ⟨1, [⟨1⟩]⟩, ⟨3, [⟨3⟩]⟩, ⟨4, [⟨1⟩]⟩] [] [] rfl⟩

/-- C19: after `splitSelectionByIndexColumns` on a filter node with `n` predicates, the
predicate list of that node still has length `n`, and its first `k` entries are the
predicates of `P` that reference only columns of the schema, in their order in `P`, for `k`
the number of such predicates. -/
theorem sel_conditions_after_split (h : Heap) (sel : Addr) (schema : Schema)
    (P : List Expression) (ch : List PhysicalPlan) (sch : Schema)
    (hsel : h.plans[sel]? = some ⟨.Selection P, ch, sch⟩) :
    ∃ h' indexSel tableSel conds,
      Selection.splitSelectionByIndexColumns h sel schema = some (h', indexSel, tableSel) ∧
      h'.plans[sel]? = some ⟨.Selection conds, ch, sch⟩ ∧
      conds.length = P.length ∧
      conds.take (P.filter (fun e => decide (∀ c ∈ ExtractColumns e, c ∈ schema))).length
        = P.filter (fun e => decide (∀ c ∈ ExtractColumns e, c ∈ schema)) := by
  have hsel_lt := lt_of_getElem?_eq_some _ _ _ hsel
  obtain ⟨C', h', hC', hres, _, hplans⟩ := split_spec h sel schema P ch sch hsel
  rw [← filter_coverable_eq]
  refine ⟨h', _, _, P.filter (fun e => coverable schema e) ++ C', hres, ?_, ?_, ?_⟩
  · rw [hplans, List.getElem?_append_left (by simpa using hsel_lt)]
    exact List.getElem?_set_self hsel_lt
  · rw [List.length_append, hC']
    exact (List.length_eq_length_filter_add (fun e => coverable schema e)).symm
  · exact List.take_left _ _

/-- The witness of C19: the filter `[t2, i1, t3, i4]` split against the schema `[1]`. -/
theorem sel_conditions_after_split_witness :
    ∃ h' indexSel tableSel conds,
      Selection.splitSelectionByIndexColumns
        ⟨[⟨.Selection [⟨2, [⟨2⟩]⟩, ⟨1, [⟨1⟩]⟩, ⟨3, [⟨3⟩]⟩, ⟨4, [⟨1⟩]⟩], [], []⟩], []⟩ 0 [⟨1⟩]
          = some (h', indexSel, tableSel) ∧
      h'.plans[0]? = some ⟨.Selection conds, [], []⟩ ∧
      conds.length
        = ([⟨2, [⟨2⟩]⟩, ⟨1, [⟨1⟩]⟩, ⟨3, [⟨3⟩]⟩, ⟨4, [⟨1⟩]⟩] : List Expression).length ∧
      conds.take (([⟨2, [⟨2⟩]⟩, ⟨1, [⟨1⟩]⟩, ⟨3, [⟨3⟩]⟩, ⟨4, [⟨1⟩]⟩] : List Expression).filter
          (fun e => decide (∀ c ∈ ExtractColumns e, c ∈ ([⟨1⟩] : Schema)))).length
        = ([⟨2, [⟨2⟩]⟩, ⟨1, [⟨1⟩]⟩, ⟨3, [⟨3⟩]⟩, ⟨4, [⟨1⟩]⟩] : List Expression).filter
          (fun e => decide (∀ c ∈ ExtractColumns e, c ∈ ([⟨1⟩] : Schema))) :=
  sel_conditions_after_split
    ⟨[⟨.Selection [⟨2, [⟨2⟩]⟩, ⟨1, [⟨1⟩]⟩, ⟨3, [⟨3⟩]⟩, ⟨4, [⟨1⟩]⟩], [], []⟩], []⟩ 0 [⟨1⟩]
    [⟨2, [⟨2⟩]⟩, ⟨1, [⟨1⟩]⟩, ⟨3, [⟨3⟩]⟩, ⟨4, [⟨1⟩]⟩] [] [] rfl

/-! ## The filter rule against `attachPlan`: claim -/

/-- C20, evaluated on the root task with plan subtree node 1 and the filter node 2 of the
worked example: `Selection.attach2TaskProfile` returns a root task whose plan is still node 1
and leaves the filter node without child, while `attachPlan` of the filter node followed by
the cost and count updates gives a root task whose plan is the filter node, over node 1; the
two results differ. -/
theorem selection_on_root_differs_from_attachPlan :
    (Selection.attach2TaskProfile exampleFactors exampleHeap 2 [1]).map
        (fun r => (rootPlanOf r.1 r.2, childrenOf r.1 2)) = some (some (some 1), some [])
    ∧ (specSelectionAttach exampleFactors exampleHeap 2 1).map
        (fun r => (rootPlanOf r.1 r.2, childrenOf r.1 2)) = some (some (some 2), some [some 1])
    ∧ Selection.attach2TaskProfile exampleFactors exampleHeap 2 [1]
        ≠ specSelectionAttach exampleFactors exampleHeap 2 1 := by
  have h1 : (Selection.attach2TaskProfile exampleFactors exampleHeap 2 [1]).map
      (fun r => (rootPlanOf r.1 r.2, childrenOf r.1 2)) = some (some (some 1), some []) := by
    decide
  have h2 : (specSelectionAttach exampleFactors exampleHeap 2 1).map
      (fun r => (rootPlanOf r.1 r.2, childrenOf r.1 2))
        = some (some (some 2), some [some 1]) := by
    decide
  refine ⟨h1, h2, ?_⟩
  intro heq
  rw [heq, h2] at h1
  revert h1
  decide

end Plan
